import Mathlib

/-!
# Verification of the ralphussy interview-pipeline core

A shallow embedding, in Lean 4, of the stage state machine, the hive-mind
temperature jitter, and the text-extraction/parsing layer of the ralphussy
repository (`src/devussyout/src/...`), together with theorems settling the
frozen specification claims about them.

Conventions used throughout:
* Python `list` values become Lean `List`, Python `dict` values become
  association lists with Python-dict insert/replace/delete semantics.
* Python `int` becomes `Int` (or `Nat` where the source value is an index),
  Python `float` becomes `Rat` (exact arithmetic on the same formulas).
* Fallible code paths (uncaught runtime exceptions) return `Option`.
* Regular expressions are embedded as explicit pattern ASTs interpreted by a
  backtracking matcher (`reMat`) mirroring Python `re` semantics (greedy and
  lazy quantifiers, ordered alternation, `re.match` anchoring, leftmost
  `re.search`, non-overlapping `re.findall`).
-/

namespace Ralphussy

/-! ## Python string primitives -/

/-- Python whitespace as used by `str.strip()` and `re`'s `\s`: ASCII
whitespace, the C1 separator block, NEL and NBSP.  (Astral Unicode space
characters are whitespace for Python too but cannot occur in the texts the
parsers consume; they are omitted.) -/
def isPyWs (c : Char) : Bool :=
  c == ' ' || c == '\t' || c == '\n' || c == '\r' || c == '\x0b' || c == '\x0c' ||
    c == '\x1c' || c == '\x1d' || c == '\x1e' || c == '\x1f' || c == '\x85' || c == '\xa0'

/-- Python `str.strip()` (no argument): drop leading and trailing whitespace. -/
def pyStrip (s : String) : String :=
  String.mk (((s.data.dropWhile isPyWs).reverse.dropWhile isPyWs).reverse)

/-- Python `str.rstrip("*")`: drop trailing `*` characters. -/
def pyRStripStar (s : String) : String :=
  String.mk ((s.data.reverse.dropWhile (fun c => c == '*')).reverse)

/-- Python `str.lower()` (ASCII; the parsers only lowercase ASCII tokens). -/
def pyLower (s : String) : String :=
  String.mk (s.data.map Char.toLower)

/-- Python `int()` on a non-empty digit string (regex group `\d+`). -/
def digitsToNat (s : String) : Nat :=
  s.data.foldl (fun n c => n * 10 + (c.toNat - 48)) 0

def splitChAux (sep : Char) : List Char → List Char → List String
  | acc, [] => [String.mk acc.reverse]
  | acc, c :: rest =>
    if c == sep then String.mk acc.reverse :: splitChAux sep [] rest
    else splitChAux sep (c :: acc) rest

/-- Python `str.split(sep)` for a one-character separator (e.g.
`split("\n")`, `split(",")`); `"".split(sep) == [""]`. -/
def pySplitOn (sep : Char) (s : String) : List String := splitChAux sep [] s.data

def listIsPre : List Char → List Char → Bool
  | [], _ => true
  | _ :: _, [] => false
  | p :: ps, c :: cs => p == c && listIsPre ps cs

/-- Python `s.startswith(pre)`. -/
def pyStartsWith (s pre : String) : Bool := listIsPre pre.data s.data

/-! ## A small regex engine mirroring Python `re`

Each Python pattern in the source is transcribed one-to-one into an `RE`
value below; `reMat` is a backtracking matcher with Python's semantics:
ordered alternation, greedy and lazy quantifiers (a repetition stops
consuming input when it stops making progress, as Python's engine does for
zero-width repeats), capture groups (last write wins), and negative
lookahead.  The fuel argument bounds the recursion depth; it is chosen
large enough for every evaluation performed in this file, and no general
theorem below depends on the engine's internals. -/

inductive RE where
  | eps
  | cls (p : Char → Bool)
  | seq (a b : RE)
  | alt (a b : RE)
  | star (lazy : Bool) (a : RE)
  | grp (n : Nat) (a : RE)
  | nla (a : RE)

def RE.size : RE → Nat
  | RE.eps => 1
  | RE.cls _ => 1
  | RE.seq a b => a.size + b.size + 1
  | RE.alt a b => a.size + b.size + 1
  | RE.star _ a => a.size + 1
  | RE.grp _ a => a.size + 1
  | RE.nla a => a.size + 1

def RE.lit (c : Char) : RE := RE.cls (fun d => d == c)

/-- A case-insensitive literal character (`re.IGNORECASE`, ASCII). -/
def RE.litCI (c : Char) : RE := RE.cls (fun d => d.toLower == c.toLower)

def RE.cat (l : List RE) : RE := l.foldr RE.seq RE.eps

def RE.litStr (s : String) : RE := RE.cat (s.data.map RE.lit)

def RE.litStrCI (s : String) : RE := RE.cat (s.data.map RE.litCI)

/-- The `x+` / `x+?`. -/
def RE.plus (lazy : Bool) (a : RE) : RE := RE.seq a (RE.star lazy a)

/-- The `x?` (greedy). -/
def RE.opt (a : RE) : RE := RE.alt a RE.eps

/-- The `$` at the end of a pattern applied to a single line (no trailing
newline): succeeds only at the end of input. -/
def RE.eol : RE := RE.nla (RE.cls (fun _ => true))

/-- The `.` without `re.DOTALL`: any character but a newline. -/
def RE.anyChar : RE := RE.cls (fun c => !(c == '\n'))

/-- The `.` with `re.DOTALL`: any character. -/
def RE.dotAll : RE := RE.cls (fun _ => true)

/-- The `\d` (ASCII digits). -/
def RE.digit : RE := RE.cls Char.isDigit

/-- The `\s`. -/
def RE.ws : RE := RE.cls isPyWs

/-- The `\w` (ASCII). -/
def RE.wordChar : RE := RE.cls (fun c => c.isAlphanum || c == '_')

/-- The backtracking matcher, in continuation style.  `reMat fuel re cs caps
k` matches `re` against a prefix of `cs`, threading the capture list, and
calls `k` on the remainder; the first success in Python's backtracking
order wins. -/
def reMat : Nat → RE → List Char → List (Nat × List Char) →
    (List Char → List (Nat × List Char) → Option (List (Nat × List Char) × List Char)) →
    Option (List (Nat × List Char) × List Char)
  | 0, _, _, _, _ => none
  | _ + 1, RE.eps, cs, caps, k => k cs caps
  | _ + 1, RE.cls p, cs, caps, k =>
    match cs with
    | [] => none
    | c :: rest => if p c then k rest caps else none
  | f + 1, RE.seq a b, cs, caps, k =>
    reMat f a cs caps (fun cs2 caps2 => reMat f b cs2 caps2 k)
  | f + 1, RE.alt a b, cs, caps, k =>
    (reMat f a cs caps k).orElse (fun _ => reMat f b cs caps k)
  | f + 1, RE.star lz a, cs, caps, k =>
    if lz then
      (k cs caps).orElse (fun _ =>
        reMat f a cs caps (fun cs2 caps2 =>
          if cs2.length < cs.length then reMat f (RE.star lz a) cs2 caps2 k else none))
    else
      (reMat f a cs caps (fun cs2 caps2 =>
        if cs2.length < cs.length then reMat f (RE.star lz a) cs2 caps2 k else none)).orElse
        (fun _ => k cs caps)
  | f + 1, RE.grp n a, cs, caps, k =>
    reMat f a cs caps (fun cs2 caps2 =>
      k cs2 ((n, cs.take (cs.length - cs2.length)) :: caps2))
  | f + 1, RE.nla a, cs, caps, k =>
    match reMat f a cs caps (fun cs2 caps2 => some (caps2, cs2)) with
    | some _ => none
    | none => k cs caps

/-- Fuel sufficient for every concrete evaluation in this file. -/
def reFuel (re : RE) (cs : List Char) : Nat := (cs.length + re.size) * 4 + 100

/-- The `re.match(pattern, s)`: anchored prefix match; returns the capture list
and the unmatched remainder. -/
def reMatch (re : RE) (s : String) : Option (List (Nat × List Char) × List Char) :=
  reMat (reFuel re s.data) re s.data [] (fun rest caps => some (caps, rest))

/-- Retrieve `m.group(n)` from a capture list (most recent write first). -/
def capGet (caps : List (Nat × List Char)) (n : Nat) : Option String :=
  match caps with
  | [] => none
  | (m, cs) :: rest => if m = n then some (String.mk cs) else capGet rest n

/-- The `re.search`: try an anchored match at each position, leftmost first. -/
def reSearchList (re : RE) : List Char → Option (List (Nat × List Char))
  | [] =>
    match reMat (reFuel re []) re [] [] (fun rest caps => some (caps, rest)) with
    | some (caps, _) => some caps
    | none => none
  | c :: rest =>
    match reMat (reFuel re (c :: rest)) re (c :: rest) [] (fun r caps => some (caps, r)) with
    | some (caps, _) => some caps
    | none => reSearchList re rest

def reSearch (re : RE) (s : String) : Option (List (Nat × List Char)) :=
  reSearchList re s.data

/-- The `re.findall`: non-overlapping leftmost matches; each match is returned
as its capture list together with the matched span. -/
def reFindAll (re : RE) : Nat → List Char → List (List (Nat × List Char) × List Char)
  | 0, _ => []
  | fuel + 1, cs =>
    match reMat (reFuel re cs) re cs [] (fun rest caps => some (caps, rest)) with
    | some (caps, rest) =>
      let matchedLen := cs.length - rest.length
      if matchedLen = 0 then
        match cs with
        | [] => [(caps, [])]
        | _ :: t => (caps, []) :: reFindAll re fuel t
      else
        (caps, cs.take matchedLen) :: reFindAll re fuel rest
    | none =>
      match cs with
      | [] => []
      | _ :: t => reFindAll re fuel t

def reFindAllStr (re : RE) (s : String) : List (List (Nat × List Char) × List Char) :=
  reFindAll re (s.data.length + 1) s.data

/-! ## Association lists with Python `dict` semantics -/

/-- Association-list lookup: Python `d.get(key)` (keys are unique in a dict,
so first match is the match). -/
def alistGet {K V : Type} [DecidableEq K] : List (K × V) → K → Option V
  | [], _ => none
  | (k, v) :: rest, key => if k = key then some v else alistGet rest key

/-- Association-list insert-or-replace: Python `d[key] = val` (replaces in
place when the key exists, appends otherwise). -/
def alistSet {K V : Type} [DecidableEq K] : List (K × V) → K → V → List (K × V)
  | [], key, val => [(key, val)]
  | (k, v) :: rest, key, val =>
    if k = key then (key, val) :: rest else (k, v) :: alistSet rest key val

/-- Association-list delete: Python `del d[key]` (keys are unique in a dict,
so filtering the key out is the same as removing its one entry). -/
def alistDel {K V : Type} [DecidableEq K] (d : List (K × V)) (key : K) : List (K × V) :=
  d.filter (fun p => decide (p.1 ≠ key))

/-- Python `list.remove`: drop the first occurrence of `v` (the source guards
each call with `if v in l`, so the missing-element exception cannot fire). -/
def pyRemove {β : Type} [DecidableEq β] : List β → β → List β
  | [], _ => []
  | x :: rest, v => if x = v then rest else x :: pyRemove rest v

/-! ## JSON values and `json.loads` (Python's `json` module) -/

/-- Parsed JSON values.  Python's `int`/`float` distinction is collapsed
into exact `Rat` arithmetic (the decimal literals that occur here are
represented exactly); `NaN`, `Infinity` and `-Infinity`, which `json.loads`
accepts, get their own constructors. -/
inductive Json where
  | null
  | bool (b : Bool)
  | num (q : Rat)
  | nan
  | inf (neg : Bool)
  | str (s : String)
  | arr (xs : List Json)
  | obj (kvs : List (String × Json))
deriving Repr

/-- Python truthiness of a parsed JSON value (`if x:`). -/
def Json.truthy : Json → Bool
  | Json.null => false
  | Json.bool b => b
  | Json.num q => decide (q ≠ 0)
  | Json.nan => true
  | Json.inf _ => true
  | Json.str s => decide (s ≠ "")
  | Json.arr xs => !xs.isEmpty
  | Json.obj kvs => !kvs.isEmpty

/-- JSON whitespace skipped by `json.loads` (strictly space, tab, newline,
carriage return; narrower than Python's `str.strip`). -/
def jsonSkipWs (cs : List Char) : List Char :=
  cs.dropWhile (fun c => c == ' ' || c == '\t' || c == '\n' || c == '\r')

def hexDigitVal (c : Char) : Option Nat :=
  if c.isDigit then some (c.toNat - 48)
  else if 'a' ≤ c && c ≤ 'f' then some (c.toNat - 87)
  else if 'A' ≤ c && c ≤ 'F' then some (c.toNat - 55)
  else none

def parseHex4 : List Char → Option (Nat × List Char)
  | a :: b :: c :: d :: rest => do
    let va ← hexDigitVal a
    let vb ← hexDigitVal b
    let vc ← hexDigitVal c
    let vd ← hexDigitVal d
    some (((va * 16 + vb) * 16 + vc) * 16 + vd, rest)
  | _ => none

/-- A character from a code point; lone surrogates (representable in a
Python `str` but not in a Lean `Char`) map to U+FFFD. -/
def charOfCode (n : Nat) : Char :=
  if 0xd800 ≤ n && n ≤ 0xdfff then '�' else Char.ofNat n

/-- The body of a JSON string after the opening quote (`py_scanstring`,
strict mode: raw control characters are rejected, `\uXXXX` escapes combine
surrogate pairs). -/
def parseJsonStrAux : Nat → List Char → List Char → Option (String × List Char)
  | 0, _, _ => none
  | _ + 1, _, [] => none
  | f + 1, acc, c :: rest =>
    if c == '"' then some (String.mk acc.reverse, rest)
    else if c == '\\' then
      match rest with
      | [] => none
      | e :: rest2 =>
        if e == '"' then parseJsonStrAux f ('"' :: acc) rest2
        else if e == '\\' then parseJsonStrAux f ('\\' :: acc) rest2
        else if e == '/' then parseJsonStrAux f ('/' :: acc) rest2
        else if e == 'b' then parseJsonStrAux f ('\x08' :: acc) rest2
        else if e == 'f' then parseJsonStrAux f ('\x0c' :: acc) rest2
        else if e == 'n' then parseJsonStrAux f ('\n' :: acc) rest2
        else if e == 'r' then parseJsonStrAux f ('\r' :: acc) rest2
        else if e == 't' then parseJsonStrAux f ('\t' :: acc) rest2
        else if e == 'u' then
          match parseHex4 rest2 with
          | none => none
          | some (n1, rest3) =>
            if 0xd800 ≤ n1 && n1 ≤ 0xdbff then
              match rest3 with
              | '\\' :: 'u' :: rest4 =>
                match parseHex4 rest4 with
                | some (n2, rest5) =>
                  if 0xdc00 ≤ n2 && n2 ≤ 0xdfff then
                    parseJsonStrAux f
                      (charOfCode (0x10000 + (n1 - 0xd800) * 0x400 + (n2 - 0xdc00)) :: acc) rest5
                  else parseJsonStrAux f (charOfCode n1 :: acc) rest3
                | none => parseJsonStrAux f (charOfCode n1 :: acc) rest3
              | _ => parseJsonStrAux f (charOfCode n1 :: acc) rest3
            else parseJsonStrAux f (charOfCode n1 :: acc) rest3
        else none
    else if c.toNat < 0x20 then none
    else parseJsonStrAux f (c :: acc) rest

def takeDigits (cs : List Char) : List Char × List Char :=
  (cs.takeWhile Char.isDigit, cs.dropWhile Char.isDigit)

/-- The `m * 10 ^ e` as an exact rational. -/
def ratOfMantissaExp (m : Int) (e : Int) : Rat :=
  if 0 ≤ e then ((m * 10 ^ e.toNat : Int) : Rat)
  else mkRat m (10 ^ (-e).toNat)

/-- A JSON number (the scanner's `NUMBER_RE`:
`(-?(?:0|[1-9]\d*))(\.\d+)?([eE][-+]?\d+)?`, maximal munch). -/
def parseJsonNumber (cs : List Char) : Option (Rat × List Char) :=
  let (neg, cs1) :=
    match cs with
    | '-' :: t => (true, t)
    | _ => (false, cs)
  match cs1 with
  | [] => none
  | c :: _ =>
    if !c.isDigit then none
    else
      let (intDigits, cs2) :=
        match cs1 with
        | '0' :: t => (['0'], t)
        | _ => takeDigits cs1
      let fracSplit :=
        match cs2 with
        | '.' :: t =>
          let ds := t.takeWhile Char.isDigit
          if ds.isEmpty then (([] : List Char), cs2) else (ds, t.dropWhile Char.isDigit)
        | _ => ([], cs2)
      let fracDigits := fracSplit.1
      let cs3 := fracSplit.2
      let expSplit :=
        match cs3 with
        | e :: t =>
          if e == 'e' || e == 'E' then
            let signSplit :=
              match t with
              | '+' :: u => ((1 : Int), u)
              | '-' :: u => ((-1 : Int), u)
              | _ => ((1 : Int), t)
            let ds := signSplit.2.takeWhile Char.isDigit
            if ds.isEmpty then ((0 : Int), cs3)
            else (signSplit.1 * (digitsToNat (String.mk ds) : Int), signSplit.2.dropWhile Char.isDigit)
          else ((0 : Int), cs3)
        | [] => ((0 : Int), cs3)
      let mantissaAbs : Int := (digitsToNat (String.mk (intDigits ++ fracDigits)) : Int)
      let mantissa : Int := if neg then -mantissaAbs else mantissaAbs
      some (ratOfMantissaExp mantissa (expSplit.1 - fracDigits.length), expSplit.2)

/-- Consume a literal token. -/
def dropLit (lit : String) (cs : List Char) : Option (List Char) :=
  if cs.take lit.length = lit.data then some (cs.drop lit.length) else none

mutual

/-- One JSON value at the head of the input (the scanner's `scan_once`):
string, object, array, literal constants, number, or the non-standard
constants `NaN` / `Infinity` / `-Infinity` that Python accepts. -/
def parseJsonValue : Nat → List Char → Option (Json × List Char)
  | 0, _ => none
  | f + 1, cs =>
    match cs with
    | [] => none
    | c :: rest =>
      if c == '"' then
        match parseJsonStrAux (rest.length + 1) [] rest with
        | some (s, r) => some (Json.str s, r)
        | none => none
      else if c == '{' then
        match jsonSkipWs rest with
        | '}' :: r => some (Json.obj [], r)
        | cs2 => parseJsonMembers f cs2 []
      else if c == '[' then
        match jsonSkipWs rest with
        | ']' :: r => some (Json.arr [], r)
        | cs2 => parseJsonElems f cs2 []
      else
        match dropLit "null" cs with
        | some r => some (Json.null, r)
        | none =>
        match dropLit "true" cs with
        | some r => some (Json.bool true, r)
        | none =>
        match dropLit "false" cs with
        | some r => some (Json.bool false, r)
        | none =>
        match parseJsonNumber cs with
        | some (q, r) => some (Json.num q, r)
        | none =>
        match dropLit "NaN" cs with
        | some r => some (Json.nan, r)
        | none =>
        match dropLit "Infinity" cs with
        | some r => some (Json.inf false, r)
        | none =>
        match dropLit "-Infinity" cs with
        | some r => some (Json.inf true, r)
        | none => none

/-- Object members after `{` (duplicate keys update in place, as a Python
dict built by repeated assignment does). -/
def parseJsonMembers : Nat → List Char → List (String × Json) →
    Option (Json × List Char)
  | 0, _, _ => none
  | f + 1, cs, acc =>
    match cs with
    | '"' :: rest =>
      match parseJsonStrAux (rest.length + 1) [] rest with
      | none => none
      | some (key, r1) =>
        match jsonSkipWs r1 with
        | ':' :: r2 =>
          match parseJsonValue f (jsonSkipWs r2) with
          | none => none
          | some (v, r3) =>
            match jsonSkipWs r3 with
            | ',' :: r4 => parseJsonMembers f (jsonSkipWs r4) (alistSet acc key v)
            | '}' :: r4 => some (Json.obj (alistSet acc key v), r4)
            | _ => none
        | _ => none
    | _ => none

/-- Array elements after `[`. -/
def parseJsonElems : Nat → List Char → List Json → Option (Json × List Char)
  | 0, _, _ => none
  | f + 1, cs, acc =>
    match parseJsonValue f cs with
    | none => none
    | some (v, r1) =>
      match jsonSkipWs r1 with
      | ',' :: r2 => parseJsonElems f (jsonSkipWs r2) (acc ++ [v])
      | ']' :: r2 => some (Json.arr (acc ++ [v]), r2)
      | _ => none

end

/-- Python `json.loads`: one value surrounded by optional whitespace, with
the whole input consumed; `none` models `JSONDecodeError`. -/
def jsonLoads (s : String) : Option Json :=
  match parseJsonValue (s.data.length + 10) (jsonSkipWs s.data) with
  | some (v, rest) => if jsonSkipWs rest = [] then some v else none
  | none => none

/-! ## JSON extractor (`src/interview/json_extractor.py`) -/

/-- First success of `g` over a list (Python `for`-loop with `break`). -/
def firstSome {A B : Type} : List A → (A → Option B) → Option B
  | [], _ => none
  | x :: rest, g =>
    match g x with
    | some v => some v
    | none => firstSome rest g

/-- The `JSON_BLOCK_PATTERN`:
`` ```(?:json)?\s*\n?(.*?)\n?``` `` with `re.DOTALL | re.IGNORECASE`. -/
def jsonBlockRE : RE :=
  RE.cat [RE.litStr "```", RE.opt (RE.litStrCI "json"), RE.star false RE.ws,
    RE.opt (RE.lit '\n'), RE.grp 1 (RE.star true RE.dotAll), RE.opt (RE.lit '\n'),
    RE.litStr "```"]

def notBrace : RE := RE.cls (fun c => !(c == '{' || c == '}'))

/-- The `JSON_OBJECT_PATTERN`: `\{[^{}]*(?:\{[^{}]*\}[^{}]*)*\}`. -/
def jsonObjectRE : RE :=
  RE.cat [RE.lit '{', RE.star false notBrace,
    RE.star false (RE.cat [RE.lit '{', RE.star false notBrace, RE.lit '}',
      RE.star false notBrace]),
    RE.lit '}']

def notBracket : RE := RE.cls (fun c => !(c == '[' || c == ']'))

/-- The `JSON_ARRAY_PATTERN`: `\[[^\[\]]*(?:\[[^\[\]]*\][^\[\]]*)*\]`. -/
def jsonArrayRE : RE :=
  RE.cat [RE.lit '[', RE.star false notBracket,
    RE.star false (RE.cat [RE.lit '[', RE.star false notBracket, RE.lit ']',
      RE.star false notBracket]),
    RE.lit ']']

/-- The `JSONExtractor._try_direct_parse` as observed by its callers: every call
site immediately tests the result with `is not None`, so a parsed JSON
`null` (Python `None`) is indistinguishable from a parse failure and is
collapsed to `none`. -/
def tryDirectParse (t : String) : Option Json :=
  match jsonLoads t with
  | some Json.null => none
  | r => r

/-- The `JSONExtractor._extract_from_code_blocks`: try each fenced block in
order, first parse wins. -/
def extractFromCodeBlocks (text : String) : Option Json :=
  firstSome (reFindAllStr jsonBlockRE text)
    (fun m => tryDirectParse (pyStrip ((capGet m.1 1).getD "")))

/-- One line of a JSON log-entry stream: the value Python would append to
`extracted_parts`, or `none` when the line is skipped.  (The appended value
is `part.get("text", "")` when truthy in the first branch — any JSON value —
and `entry["text"]` only when it is a string in the second.) -/
def logEntryVal (line : String) : Option Json :=
  let l := pyStrip line
  if l = "" ∨ ¬ pyStartsWith l "\x7b" then none
  else
    match jsonLoads l with
    | some (Json.obj o) =>
      let ty := (alistGet o "type").getD (Json.str "")
      let isText : Bool :=
        match ty with
        | Json.str s => s == "text"
        | _ => false
      match alistGet o "part" with
      | some (Json.obj po) =>
        if isText then
          let tc := (alistGet po "text").getD (Json.str "")
          if tc.truthy then some tc else none
        else
          match alistGet o "text" with
          | some (Json.str s) => some (Json.str s)
          | _ => none
      | some _ =>
        match alistGet o "text" with
        | some (Json.str s) => some (Json.str s)
        | _ => none
      | none =>
        if isText then
          let tc := ((alistGet ([] : List (String × Json)) "text")).getD (Json.str "")
          if tc.truthy then some tc else none
        else
          match alistGet o "text" with
          | some (Json.str s) => some (Json.str s)
          | _ => none
    | _ => none

/-- Join the appended parts; `none` models the `TypeError` that
`"\n".join` raises on a non-string element. -/
def joinLogParts (vals : List Json) : Option String :=
  (vals.mapM (fun v =>
    match v with
    | Json.str s => some s
    | _ => none)).map (fun parts => String.intercalate "\n" parts)

/-- The `JSONExtractor._extract_from_log_entries`: `some none` is Python `None`,
`some (some s)` a returned string, outer `none` the join `TypeError`. -/
def extractFromLogEntriesJE (response : String) : Option (Option String) :=
  if ¬ pyStartsWith (pyStrip response) "\x7b" then some none
  else
    let vals := (pySplitOn '\n' response).filterMap logEntryVal
    if vals.isEmpty then some none
    else (joinLogParts vals).map (fun s => some s)

/-- The `JSONExtractor._find_json_object`: all spans matching the object
pattern that parse to a dict; stable sort by length descending, so the
first-seen longest valid object wins. -/
def findJsonObject (text : String) : Option Json :=
  let valid := (reFindAllStr jsonObjectRE text).filterMap (fun m =>
    match tryDirectParse (String.mk m.2) with
    | some (Json.obj o) => some (m.2.length, Json.obj o)
    | _ => none)
  match valid with
  | [] => none
  | v :: rest => some ((rest.foldl (fun best x => if best.1 < x.1 then x else best) v).2)

/-- The `JSONExtractor._find_json_array`: the first span matching the array
pattern that parses to a list. -/
def findJsonArray (text : String) : Option Json :=
  firstSome (reFindAllStr jsonArrayRE text) (fun m =>
    match tryDirectParse (String.mk m.2) with
    | some (Json.arr xs) => some (Json.arr xs)
    | _ => none)

/-- The `JSONExtractor.extract_json`: the four extraction strategies in order.
The outer `none` models the uncaught `TypeError` a malformed log stream can
raise in strategy 3; `some none` is a Python `None` result. -/
def extractJson (response : String) (expectType : String) : Option (Option Json) :=
  if pyStrip response = "" then some none
  else
    match tryDirectParse (pyStrip response) with
    | some v => some (some v)
    | none =>
      match extractFromCodeBlocks response with
      | some v => some (some v)
      | none =>
        match extractFromLogEntriesJE response with
        | none => none
        | some r3 =>
          let viaLog : Option Json :=
            match r3 with
            | some s => tryDirectParse s
            | none => none
          match viaLog with
          | some v => some (some v)
          | none =>
            some (if expectType = "array" then findJsonArray response
                  else findJsonObject response)

/-! ### The labeled-field regex fallback -/

def quoteCls : RE := RE.cls (fun c => c == '"' || c == '\'')

/-- The `[:\s]+` character class member. -/
def colonWs : RE := RE.cls (fun c => c == ':' || isPyWs c)

def notQuoteNl : RE := RE.cls (fun c => !(c == '"' || c == '\'' || c == '\n'))

def notNl : RE := RE.cls (fun c => !(c == '\n'))

/-- The `[Pp]roject\s*[Nn]ame[:\s]+["\']?([^"\'\n]+)["\']?` -/
def projectNameRE1 : RE :=
  RE.cat [RE.cls (fun c => c == 'P' || c == 'p'), RE.litStr "roject", RE.star false RE.ws,
    RE.cls (fun c => c == 'N' || c == 'n'), RE.litStr "ame", RE.plus false colonWs,
    RE.opt quoteCls, RE.grp 1 (RE.plus false notQuoteNl), RE.opt quoteCls]

/-- The `[Nn]ame[:\s]+["\']?([^"\'\n]+)["\']?` -/
def projectNameRE2 : RE :=
  RE.cat [RE.cls (fun c => c == 'N' || c == 'n'), RE.litStr "ame", RE.plus false colonWs,
    RE.opt quoteCls, RE.grp 1 (RE.plus false notQuoteNl), RE.opt quoteCls]

/-- The `[Ll]anguages?[:\s]+([^\n]+)` -/
def languagesRE1 : RE :=
  RE.cat [RE.cls (fun c => c == 'L' || c == 'l'), RE.litStr "anguage", RE.opt (RE.lit 's'),
    RE.plus false colonWs, RE.grp 1 (RE.plus false notNl)]

/-- The `[Pp]rogramming\s+[Ll]anguages?[:\s]+([^\n]+)` -/
def languagesRE2 : RE :=
  RE.cat [RE.cls (fun c => c == 'P' || c == 'p'), RE.litStr "rogramming",
    RE.plus false RE.ws, RE.cls (fun c => c == 'L' || c == 'l'), RE.litStr "anguage",
    RE.opt (RE.lit 's'), RE.plus false colonWs, RE.grp 1 (RE.plus false notNl)]

/-- The `[Ff]rameworks?[:\s]+([^\n]+)` -/
def frameworksRE : RE :=
  RE.cat [RE.cls (fun c => c == 'F' || c == 'f'), RE.litStr "ramework", RE.opt (RE.lit 's'),
    RE.plus false colonWs, RE.grp 1 (RE.plus false notNl)]

/-- The `[Rr]equirements?[:\s]+([^\n]+(?:\n(?![\w]+:)[^\n]+)*)` -/
def requirementsRE : RE :=
  RE.cat [RE.cls (fun c => c == 'R' || c == 'r'), RE.litStr "equirement", RE.opt (RE.lit 's'),
    RE.plus false colonWs,
    RE.grp 1 (RE.cat [RE.plus false notNl,
      RE.star false (RE.cat [RE.lit '\n',
        RE.nla (RE.cat [RE.plus false RE.wordChar, RE.lit ':']), RE.plus false notNl])])]

/-- The `[Aa][Pp][Ii]s?[:\s]+([^\n]+)` -/
def apisRE1 : RE :=
  RE.cat [RE.cls (fun c => c == 'A' || c == 'a'), RE.cls (fun c => c == 'P' || c == 'p'),
    RE.cls (fun c => c == 'I' || c == 'i'), RE.opt (RE.lit 's'), RE.plus false colonWs,
    RE.grp 1 (RE.plus false notNl)]

/-- The `[Ee]xternal\s+[Ss]ervices?[:\s]+([^\n]+)` -/
def apisRE2 : RE :=
  RE.cat [RE.cls (fun c => c == 'E' || c == 'e'), RE.litStr "xternal", RE.plus false RE.ws,
    RE.cls (fun c => c == 'S' || c == 's'), RE.litStr "ervice", RE.opt (RE.lit 's'),
    RE.plus false colonWs, RE.grp 1 (RE.plus false notNl)]

/-- The `patterns` dict of `_extract_fields_via_regex`, in insertion order. -/
def interviewFieldNames : List String :=
  ["project_name", "languages", "frameworks", "requirements", "apis"]

def fieldPatterns : String → List RE
  | "project_name" => [projectNameRE1, projectNameRE2]
  | "languages" => [languagesRE1, languagesRE2]
  | "frameworks" => [frameworksRE]
  | "requirements" => [requirementsRE]
  | "apis" => [apisRE1, apisRE2]
  | _ => []

/-- For one field: the first of its patterns that `re.search`es the text,
with the capture stripped (`match.group(1).strip()`). -/
def fieldFirstMatch (field : String) (text : String) : Option String :=
  firstSome (fieldPatterns field) (fun re =>
    match reSearch re text with
    | some caps => (capGet caps 1).map pyStrip
    | none => none)

/-- The `re.split(r'[,;]\s*', value)`. -/
def splitDelimsAux : Nat → List Char → List Char → List String
  | 0, acc, _ => [String.mk acc.reverse]
  | _ + 1, acc, [] => [String.mk acc.reverse]
  | f + 1, acc, c :: rest =>
    if c == ',' || c == ';' then
      String.mk acc.reverse :: splitDelimsAux f [] (rest.dropWhile isPyWs)
    else splitDelimsAux f (c :: acc) rest

def splitDelims (s : String) : List String :=
  splitDelimsAux (s.data.length + 1) [] s.data

/-- The fields whose values are split into lists. -/
def listValuedFields : List String := ["languages", "frameworks", "apis"]

/-- The value stored for a matched field: the comma/semicolon split (items
stripped, empties dropped) for list fields, the raw matched string
otherwise. -/
def fieldValue (field : String) (v : String) : Json :=
  if field ∈ listValuedFields then
    Json.arr ((splitDelims v).filterMap (fun item =>
      if pyStrip item = "" then none else some (Json.str (pyStrip item))))
  else Json.str v

/-- The `JSONExtractor._extract_fields_via_regex`. -/
def fieldsViaRegex (text : String) : List (String × Json) :=
  interviewFieldNames.foldl (fun acc f =>
    match fieldFirstMatch f text with
    | some v => alistSet acc f (fieldValue f v)
    | none => acc) []

/-- The `JSONExtractor.extract_interview_data`: the extracted JSON dict when it
is truthy (non-empty), else the regex fallback.  Outer `none` is the
propagated strategy-3 `TypeError`. -/
def extractInterviewData (response : String) : Option (List (String × Json)) :=
  match extractJson response "object" with
  | none => none
  | some jd =>
    match jd with
    | some (Json.obj o) => if o.isEmpty then some (fieldsViaRegex response) else some o
    | _ => some (fieldsViaRegex response)

/-! ## Devplan data model (`src/models.py`) -/

structure DevPlanStep where
  number : String
  description : String
  details : List String := []
  done : Bool := false
deriving DecidableEq, Repr

structure TaskGroup where
  groupNumber : Int
  description : String
  estimatedFiles : List String := []
  steps : List DevPlanStep := []
deriving DecidableEq, Repr

structure DevPlanPhase where
  number : Int
  title : String
  description : Option String := none
  steps : List DevPlanStep := []
  taskGroups : List TaskGroup := []
deriving DecidableEq, Repr

structure DevPlan where
  phases : List DevPlanPhase
  summary : Option String := none
deriving DecidableEq, Repr

/-! ## Basic devplan parsing (`src/pipeline/basic_devplan.py`) -/

/-- The `BasicDevPlanGenerator._extract_text_from_log_entries` (same per-line
logic as the extractor's `_extract_from_log_entries`, but returning the
original response when nothing is extracted); `none` models the join
`TypeError` on a non-string extracted part. -/
def extractTextFromLogEntries (response : String) : Option String :=
  if pyStrip response = "" then some response
  else if ¬ pyStartsWith (pyStrip response) "\x7b" then some response
  else
    let vals := (pySplitOn '\n' response).filterMap logEntryVal
    if vals.isEmpty then some response
    else joinLogParts vals

/-- The `[:\-–—]` (colon, hyphen, en dash, em dash). -/
def dashCls : RE := RE.cls (fun c => c == ':' || c == '-' || c == '–' || c == '—')

/-- The `^\d+\.\s*\*\*\s*Phase\s+0*(\d+)\s*[:\-–—]\s*(.+?)\s*\*\*\s*$` (IGNORECASE) -/
def phaseRE1 : RE :=
  RE.cat [RE.plus false RE.digit, RE.lit '.', RE.star false RE.ws, RE.litStr "**",
    RE.star false RE.ws, RE.litStrCI "phase", RE.plus false RE.ws,
    RE.star false (RE.lit '0'), RE.grp 1 (RE.plus false RE.digit), RE.star false RE.ws,
    dashCls, RE.star false RE.ws, RE.grp 2 (RE.plus true RE.anyChar), RE.star false RE.ws,
    RE.litStr "**", RE.star false RE.ws, RE.eol]

/-- The `^\*\*\s*Phase\s+0*(\d+)\s*[:\-–—]\s*(.+?)\s*\*\*\s*$` -/
def phaseRE2 : RE :=
  RE.cat [RE.litStr "**", RE.star false RE.ws, RE.litStrCI "phase", RE.plus false RE.ws,
    RE.star false (RE.lit '0'), RE.grp 1 (RE.plus false RE.digit), RE.star false RE.ws,
    dashCls, RE.star false RE.ws, RE.grp 2 (RE.plus true RE.anyChar), RE.star false RE.ws,
    RE.litStr "**", RE.star false RE.ws, RE.eol]

/-- The `^Phase\s+0*(\d+)\s*[:\-–—]\s*(.+)$` -/
def phaseRE3 : RE :=
  RE.cat [RE.litStrCI "phase", RE.plus false RE.ws, RE.star false (RE.lit '0'),
    RE.grp 1 (RE.plus false RE.digit), RE.star false RE.ws, dashCls, RE.star false RE.ws,
    RE.grp 2 (RE.plus false RE.anyChar), RE.eol]

/-- The `^#{1,6}\s*Phase\s+0*(\d+)\s*[:\-–—]\s*(.+)$` -/
def phaseRE4 : RE :=
  RE.cat [RE.lit '#', RE.opt (RE.lit '#'), RE.opt (RE.lit '#'), RE.opt (RE.lit '#'),
    RE.opt (RE.lit '#'), RE.opt (RE.lit '#'), RE.star false RE.ws, RE.litStrCI "phase",
    RE.plus false RE.ws, RE.star false (RE.lit '0'), RE.grp 1 (RE.plus false RE.digit),
    RE.star false RE.ws, dashCls, RE.star false RE.ws,
    RE.grp 2 (RE.plus false RE.anyChar), RE.eol]

/-- The `^(\d+)\s*[\.)]\s*(.+)$` -/
def phaseRE5 : RE :=
  RE.cat [RE.grp 1 (RE.plus false RE.digit), RE.star false RE.ws,
    RE.cls (fun c => c == '.' || c == ')'), RE.star false RE.ws,
    RE.grp 2 (RE.plus false RE.anyChar), RE.eol]

/-- The `phase_patterns` list of `_parse_response`. -/
def flatPhasePatterns : List RE := [phaseRE1, phaseRE2, phaseRE3, phaseRE4, phaseRE5]

/-- The `phase_patterns` list of `_parse_grouped_response` (no bare
`N. Title` fallback). -/
def groupedPhasePatterns : List RE := [phaseRE1, phaseRE2, phaseRE3, phaseRE4]

/-- The phase-header loop: first pattern to match wins, yielding
`(int(m.group(1)), m.group(2).strip())` (the `int` conversion cannot fail
on a `\d+` capture, so the `except` branch is dead). -/
def phaseHeaderMatch (patterns : List RE) (stripped : String) : Option (Nat × String) :=
  firstSome patterns (fun re =>
    match reMatch re stripped with
    | some (caps, _) =>
      match capGet caps 1, capGet caps 2 with
      | some g1, some g2 => some (digitsToNat g1, pyStrip g2)
      | _, _ => none
    | none => none)

/-- Description cleanup at phase flush: `strip`, then delete every `*`
(`re.sub(r'\*+', '', ...)`), empty → `None`. -/
def cleanDescription (d : String) : Option String :=
  let x := String.mk ((pyStrip d).data.filter (fun c => !(c == '*')))
  if x = "" then none else some x

/-- The `s.split(":", 1)[1]` when a colon exists, `""` otherwise. -/
def afterFirstColon (s : String) : String :=
  match s.data.dropWhile (fun c => !(c == ':')) with
  | [] => ""
  | _ :: rest => String.mk rest

/-- Loop state of `_parse_response`: accumulated phases, `current_phase`,
`current_items` (collected but never emitted), `current_description`,
`next_phase_number`. -/
structure FlatState where
  phases : List DevPlanPhase
  cur : Option (Nat × String)
  items : List String
  desc : String
  nextNum : Nat
deriving Repr

/-- Flush `current_phase` into the phase list (both the in-loop and the
end-of-loop append sites build the same record). -/
def flatFlush (st : FlatState) : List DevPlanPhase :=
  match st.cur with
  | none => st.phases
  | some (n, t) =>
    st.phases ++ [{ number := (n : Int), title := t,
                    description := cleanDescription st.desc, steps := [] }]

/-- One line of `_parse_response`'s loop. -/
def flatStep (st : FlatState) (line : String) : FlatState :=
  let stripped := pyStrip line
  match phaseHeaderMatch flatPhasePatterns stripped with
  | some (_, matchTitle) =>
    let phases := flatFlush st
    let phaseNum := st.nextNum
    let title0 := if matchTitle = "" then "Phase " ++ toString phaseNum else matchTitle
    let title := pyStrip (pyRStripStar title0)
    { phases := phases, cur := some (phaseNum, title), items := [], desc := "",
      nextNum := st.nextNum + 1 }
  | none =>
    if pyStartsWith stripped "-" ∧ st.cur.isSome then
      if pyStartsWith stripped "- Summary:" ∨ pyStartsWith stripped "- summary:" then
        let summaryText := pyStrip (afterFirstColon stripped)
        if summaryText ≠ "" then { st with desc := summaryText } else st
      else
        let item := pyStrip (stripped.drop 1)
        if item ≠ "" ∧ ¬ pyStartsWith (pyLower item) "summary:" ∧
            ¬ pyStartsWith (pyLower item) "major components:" then
          { st with items := st.items ++ [item] }
        else st
    else if stripped ≠ "" ∧ ¬ pyStartsWith stripped "#" ∧ st.cur.isSome ∧
        st.items = [] ∧ st.desc = "" then
      { st with desc := stripped }
    else st

def flatInitState : FlatState :=
  { phases := [], cur := none, items := [], desc := "", nextNum := 1 }

/-- The `BasicDevPlanGenerator._parse_response` (flat mode); `none` is the
(unlikely) `TypeError` escaping `_extract_text_from_log_entries`. -/
def parseFlatResponse (response : String) (projectName : String) : Option DevPlan :=
  (extractTextFromLogEntries response).map (fun r =>
    let phases := flatFlush ((pySplitOn '\n' r).foldl flatStep flatInitState)
    let phases :=
      if phases.isEmpty then
        [{ number := 1, title := "Implementation", steps := [] }]
      else phases
    { phases := phases,
      summary := some ("Development plan for " ++ projectName ++ " with " ++
        toString phases.length ++ " phases") })

/-! ### Grouped-mode parsing -/

/-- The `\*\*?`: one or two literal asterisks (note: at least one is required,
in all three group-header patterns). -/
def star12 : RE := RE.cat [RE.lit '*', RE.opt (RE.lit '*')]

def filesKeyBracket : RE := RE.alt (RE.litStrCI "estimated_files") (RE.litStrCI "files")

def colonEq : RE := RE.cls (fun c => c == ':' || c == '=')

/-- The `^-?\s*\*\*?\s*Group\s+(\d+)\s*\*\*?\s*\[(?:estimated_files|files)\s*[:=]?\s*(.*?)\]\s*$` -/
def groupBracketRE : RE :=
  RE.cat [RE.opt (RE.lit '-'), RE.star false RE.ws, star12, RE.star false RE.ws,
    RE.litStrCI "group", RE.plus false RE.ws, RE.grp 1 (RE.plus false RE.digit),
    RE.star false RE.ws, star12, RE.star false RE.ws, RE.lit '[', filesKeyBracket,
    RE.star false RE.ws, RE.opt colonEq, RE.star false RE.ws,
    RE.grp 2 (RE.star true RE.anyChar), RE.lit ']', RE.star false RE.ws, RE.eol]

/-- The `^-?\s*\*\*?\s*Group\s+(\d+)\s*\*\*?\s*[:\-–—]?\s*(?:\[(?:estimated_files|files)\s*[:=]?\s*(.*?)\]|(?:files|estimated_files)\s*[:=]\s*(.*?))\s*$` -/
def groupInlineRE : RE :=
  RE.cat [RE.opt (RE.lit '-'), RE.star false RE.ws, star12, RE.star false RE.ws,
    RE.litStrCI "group", RE.plus false RE.ws, RE.grp 1 (RE.plus false RE.digit),
    RE.star false RE.ws, star12, RE.star false RE.ws, RE.opt dashCls, RE.star false RE.ws,
    RE.alt
      (RE.cat [RE.lit '[', filesKeyBracket, RE.star false RE.ws, RE.opt colonEq,
        RE.star false RE.ws, RE.grp 2 (RE.star true RE.anyChar), RE.lit ']'])
      (RE.cat [RE.alt (RE.litStrCI "files") (RE.litStrCI "estimated_files"),
        RE.star false RE.ws, colonEq, RE.star false RE.ws,
        RE.grp 3 (RE.star true RE.anyChar)]),
    RE.star false RE.ws, RE.eol]

/-- The `^-?\s*\*\*?\s*Group\s+(\d+)\s*\*\*?\s*[:\-–—]?\s*(.*)?$` -/
def groupSimpleRE : RE :=
  RE.cat [RE.opt (RE.lit '-'), RE.star false RE.ws, star12, RE.star false RE.ws,
    RE.litStrCI "group", RE.plus false RE.ws, RE.grp 1 (RE.plus false RE.digit),
    RE.star false RE.ws, star12, RE.star false RE.ws, RE.opt dashCls, RE.star false RE.ws,
    RE.opt (RE.grp 2 (RE.star false RE.anyChar)), RE.eol]

/-- The group-header cascade of `_parse_grouped_response` (bracketed form,
then inline form — `m.group(2) or m.group(3) or ""` — then simple form with
an empty files string); yields `(group number, files_str)`. -/
def groupHeaderMatch (stripped : String) : Option (Nat × String) :=
  match reMatch groupBracketRE stripped with
  | some (caps, _) =>
    match capGet caps 1 with
    | some g1 => some (digitsToNat g1, pyStrip ((capGet caps 2).getD ""))
    | none => none
  | none =>
    match reMatch groupInlineRE stripped with
    | some (caps, _) =>
      match capGet caps 1 with
      | some g1 =>
        let g2 := (capGet caps 2).getD ""
        let g3 := (capGet caps 3).getD ""
        some (digitsToNat g1, pyStrip (if g2 ≠ "" then g2 else g3))
      | none => none
    | none =>
      match reMatch groupSimpleRE stripped with
      | some (caps, _) =>
        match capGet caps 1 with
        | some g1 => some (digitsToNat g1, "")
        | none => none
      | none => none

/-- The `re.sub(r"[;|\\]+", ",", files_str)`. -/
def normalizeFilesSep : Nat → List Char → List Char
  | 0, cs => cs
  | _ + 1, [] => []
  | f + 1, c :: rest =>
    if c == ';' || c == '|' || c == '\\' then
      ',' :: normalizeFilesSep f (rest.dropWhile (fun d => d == ';' || d == '|' || d == '\\'))
    else c :: normalizeFilesSep f rest

/-- The `file_patterns` computation of the grouped parser's group branch. -/
def parseFilePatterns (filesStr : String) : List String :=
  if filesStr = "" then []
  else
    let norm := String.mk (normalizeFilesSep (filesStr.data.length + 1) filesStr.data)
    (pySplitOn ',' norm).filterMap (fun f => if pyStrip f = "" then none else some (pyStrip f))

/-- Loop state of `_parse_grouped_response`. -/
structure GroupedState where
  phases : List DevPlanPhase
  cur : Option (Nat × String)
  curGroups : List TaskGroup
  curGroup : Option (Nat × List String)
  curTasks : List String
  desc : String
  nextNum : Nat
deriving Repr

/-- Flush `current_group` (with its accumulated tasks as numbered steps)
onto `current_phase_groups`. -/
def flushGroup (st : GroupedState) : List TaskGroup :=
  match st.curGroup with
  | none => st.curGroups
  | some (gn, files) =>
    let pn :=
      match st.cur with
      | some (n, _) => toString (n : Int)
      | none => "1"
    let g : TaskGroup :=
      { groupNumber := (gn : Int)
        description := "Task group " ++ toString gn
        estimatedFiles := files
        steps := st.curTasks.enum.map (fun it =>
          { number := pn ++ "." ++ toString (it.1 + 1), description := it.2 }) }
    st.curGroups ++ [g]

/-- Flush `current_phase` with a given group list. -/
def flushGroupedPhase (st : GroupedState) (groups : List TaskGroup) : List DevPlanPhase :=
  match st.cur with
  | none => st.phases
  | some (n, t) =>
    let ph : DevPlanPhase :=
      { number := (n : Int)
        title := t
        description := cleanDescription st.desc
        steps := []
        taskGroups := groups }
    st.phases ++ [ph]

/-- One line of `_parse_grouped_response`'s loop. -/
def groupedStep (st : GroupedState) (line : String) : GroupedState :=
  let stripped := pyStrip line
  match phaseHeaderMatch groupedPhasePatterns stripped with
  | some (_, matchTitle) =>
    let groups := flushGroup st
    let phases := flushGroupedPhase st groups
    let phaseNum := st.nextNum
    let title0 := if matchTitle = "" then "Phase " ++ toString phaseNum else matchTitle
    let title := pyStrip (pyRStripStar title0)
    { phases := phases, cur := some (phaseNum, title), curGroups := [], curGroup := none,
      curTasks := [], desc := "", nextNum := st.nextNum + 1 }
  | none =>
    match groupHeaderMatch stripped with
    | some (gnum, filesStr) =>
      let st1 :=
        match st.cur with
        | none =>
          { st with
            cur := some (st.nextNum, "Phase 1")
            curGroups := []
            nextNum := st.nextNum + 1 }
        | some _ => st
      let groups := flushGroup st1
      { st1 with
        curGroups := groups
        curGroup := some (gnum, parseFilePatterns filesStr)
        curTasks := [] }
    | none =>
      if pyStartsWith stripped "-" ∧ st.curGroup.isSome then
        let task := pyStrip (stripped.drop 1)
        if task ≠ "" ∧ ¬ pyStartsWith task "**Group" then
          { st with curTasks := st.curTasks ++ [task] }
        else st
      else if stripped ≠ "" ∧ st.cur.isSome ∧ st.curGroup.isNone ∧
          ¬ pyStartsWith stripped "#" then
        if st.desc ≠ "" then { st with desc := st.desc ++ " " ++ stripped }
        else { st with desc := stripped }
      else st

def groupedInitState : GroupedState :=
  { phases := [], cur := none, curGroups := [], curGroup := none, curTasks := [],
    desc := "", nextNum := 1 }

/-- The line-oriented part of the grouped parser. -/
def parseGroupedLines (lines : List String) : List DevPlanPhase :=
  let st := lines.foldl groupedStep groupedInitState
  flushGroupedPhase st (flushGroup st)

/-- The `` ```json\s*(\{.*?\})\s*``` `` with `re.S | re.IGNORECASE` (the
machine-readable block search of the grouped parser). -/
def groupedJsonBlockRE : RE :=
  RE.cat [RE.litStr "```", RE.litStrCI "json", RE.star false RE.ws,
    RE.grp 1 (RE.cat [RE.lit '{', RE.star true RE.dotAll, RE.lit '}']),
    RE.star false RE.ws, RE.litStr "```"]

/-- The grouped parser's JSON-block detection: `some o` when the search
succeeds, `json.loads` parses, and the dict is truthy (`if json_block:`). -/
def groupedJsonBlock (response : String) : Option (List (String × Json)) :=
  match reSearch groupedJsonBlockRE response with
  | some caps =>
    match (capGet caps 1).bind (fun g => jsonLoads g) with
    | some (Json.obj o) => if o.isEmpty then none else some o
    | _ => none
  | none => none

/-- Python `a or default` on an optional JSON value: the value when truthy,
else the default. -/
def pyOr (a : Option Json) (b : Json) : Json :=
  match a with
  | some v => if v.truthy then v else b
  | none => b

/-- Python iteration (`for x in v`): lists yield elements, strings yield
one-character strings, dicts yield keys; anything else raises `TypeError`. -/
def pyIter : Json → Option (List Json)
  | Json.arr xs => some xs
  | Json.str s => some (s.data.map (fun c => Json.str (String.mk [c])))
  | Json.obj kvs => some (kvs.map (fun kv => Json.str kv.1))
  | _ => none

/-- Python `str()` of a parsed JSON scalar.  The Python rendering of
containers and non-integral floats is not modelled: those yield `none`,
which the caller treats as a failure of the embedded parser; no theorem
below depends on that corner. -/
def pyStr : Json → Option String
  | Json.str s => some s
  | Json.bool b => some (if b then "True" else "False")
  | Json.null => some "None"
  | Json.num q => if q.den = 1 then some (toString q.num) else none
  | Json.nan => some "nan"
  | Json.inf neg => some (if neg then "-inf" else "inf")
  | _ => none

/-- The JSON-block phase construction of `_parse_grouped_response`.
`none` models an uncaught exception: a non-dict phase/group member
(`AttributeError` on `.get`), a non-string value where pydantic requires
`str` / `List[str]` / `Optional[str]`, a non-iterable where iteration is
attempted, or an unmodelled `str()` rendering. -/
def phasesFromJsonBlock (o : List (String × Json)) : Option (List DevPlanPhase) := do
  let ps ← pyIter (pyOr (alistGet o "phases") (Json.arr []))
  ps.enum.mapM (fun pp => do
    match pp.2 with
    | Json.obj pd =>
      let title ← (match pyOr (alistGet pd "title")
          (pyOr (alistGet pd "name") (Json.str ("Phase " ++ toString (pp.1 + 1)))) with
        | Json.str s => some s
        | _ => none)
      let pdesc ← (match alistGet pd "description" with
        | none => some none
        | some Json.null => some none
        | some (Json.str s) => some (some s)
        | some _ => none)
      let gs ← pyIter (pyOr (alistGet pd "task_groups") (Json.arr []))
      let groups ← gs.enum.mapM (fun gg => do
        match gg.2 with
        | Json.obj gd =>
          let files ← (match pyOr (alistGet gd "estimated_files")
              (pyOr (alistGet gd "files") (Json.arr [])) with
            | Json.arr fs => fs.mapM (fun f =>
                match f with
                | Json.str s => some s
                | _ => none)
            | _ => none)
          let sraw ← pyIter (pyOr (alistGet gd "steps") (Json.arr []))
          let steps ← sraw.enum.mapM (fun ss => do
            let desc ← (match ss.2 with
              | Json.obj sd =>
                (match pyOr (alistGet sd "description")
                    (pyOr (alistGet sd "title") Json.null) with
                | Json.str ds => some ds
                | Json.null => pyStr (Json.obj sd)
                | _ => none)
              | s => pyStr s)
            some ({ number := toString (pp.1 + 1) ++ "." ++ toString (ss.1 + 1),
                    description := desc } : DevPlanStep))
          let gdesc ← (match pyOr (alistGet gd "description")
              (Json.str ("Task group " ++ toString (gg.1 + 1))) with
            | Json.str s => some s
            | _ => none)
          some ({ groupNumber := ((gg.1 + 1 : Nat) : Int), description := gdesc,
                  estimatedFiles := files, steps := steps } : TaskGroup)
        | _ => none)
      some ({ number := ((pp.1 + 1 : Nat) : Int), title := title, description := pdesc,
              steps := [], taskGroups := groups } : DevPlanPhase)
    | _ => none)

/-- The `BasicDevPlanGenerator._parse_grouped_response`. -/
def parseGroupedResponse (response : String) (projectName : String) : Option DevPlan :=
  match extractTextFromLogEntries response with
  | none => none
  | some r =>
    match groupedJsonBlock r with
    | some o =>
      match phasesFromJsonBlock o with
      | none => none
      | some phases0 =>
        let phases :=
          if phases0.isEmpty then
            [{ number := 1, title := "Implementation", steps := [], taskGroups := [] }]
          else phases0
        some { phases := phases,
               summary := some ("Development plan for " ++ projectName ++ " with " ++
                 toString phases.length ++ " phases (grouped mode - from JSON)") }
    | none =>
      let phases0 := parseGroupedLines (pySplitOn '\n' r)
      let phases :=
        if phases0.isEmpty then
          [{ number := 1, title := "Implementation", steps := [], taskGroups := [] }]
        else phases0
      some { phases := phases,
             summary := some ("Development plan for " ++ projectName ++ " with " ++
               toString phases.length ++ " phases (grouped mode)") }

/-! ## Detailed devplan parsing (`src/pipeline/detailed_devplan.py`) -/

/-- The `^{phase_number}\.(\d+):?\s*(.+)$` with the caller's phase number
interpolated into the pattern text. -/
def stepHeaderRE (phaseNumber : Int) : RE :=
  RE.cat [RE.litStr (toString phaseNumber), RE.lit '.', RE.grp 1 (RE.plus false RE.digit),
    RE.opt (RE.lit ':'), RE.star false RE.ws, RE.grp 2 (RE.plus false RE.anyChar), RE.eol]

/-- A step-header match: `(int(m.group(1)), m.group(2).strip())`. -/
def stepHeaderMatch (phaseNumber : Int) (stripped : String) : Option (Nat × String) :=
  match reMatch (stepHeaderRE phaseNumber) stripped with
  | some (caps, _) =>
    match capGet caps 1, capGet caps 2 with
    | some g1, some g2 => some (digitsToNat g1, pyStrip g2)
    | _, _ => none
  | none => none

/-- Loop state shared by `_parse_steps` and `extract_phase_data` (their
loops are line-for-line identical). -/
structure StepsState where
  steps : List DevPlanStep
  cur : Option (String × String)
  details : List String
deriving Repr

def stepsFlush (st : StepsState) : List DevPlanStep :=
  match st.cur with
  | none => st.steps
  | some (n, d) => st.steps ++ [{ number := n, description := d, details := st.details }]

def stepsLineStep (phaseNumber : Int) (st : StepsState) (line : String) : StepsState :=
  let stripped := pyStrip line
  match stepHeaderMatch phaseNumber stripped with
  | some (subNum, desc) =>
    { steps := stepsFlush st,
      cur := some (toString phaseNumber ++ "." ++ toString subNum, desc), details := [] }
  | none =>
    if pyStartsWith stripped "-" ∧ st.cur.isSome then
      let detail := pyStrip (stripped.drop 1)
      if detail ≠ "" then { st with details := st.details ++ [detail] } else st
    else st

def stepsInitState : StepsState := { steps := [], cur := none, details := [] }

/-- The `DetailedDevPlanGenerator._parse_steps` (with its single-placeholder
fallback). -/
def parseSteps (response : String) (phaseNumber : Int) : List DevPlanStep :=
  let steps := stepsFlush ((pySplitOn '\n' response).foldl (stepsLineStep phaseNumber)
    stepsInitState)
  if steps.isEmpty then
    [{ number := toString phaseNumber ++ ".1", description := "Implement phase requirements" }]
  else steps

/-- The `JSONExtractor.extract_phase_data`: the same loop, but the steps are
returned as `(number, description, details)` dicts and there is no
placeholder fallback. -/
def extractPhaseData (response : String) (phaseNumber : Int) :
    List (String × String × List String) :=
  (stepsFlush ((pySplitOn '\n' response).foldl (stepsLineStep phaseNumber)
    stepsInitState)).map (fun s => (s.number, s.description, s.details))

/-- The `^-?\s*\*\*\s*Group\s+(\d+)\s*\*\*\s*\[estimated_files:\s*(.*?)\]`
(IGNORECASE; a prefix match — text after `]` is allowed). -/
def detailedGroupRE : RE :=
  RE.cat [RE.opt (RE.lit '-'), RE.star false RE.ws, RE.litStr "**", RE.star false RE.ws,
    RE.litStrCI "group", RE.plus false RE.ws, RE.grp 1 (RE.plus false RE.digit),
    RE.star false RE.ws, RE.litStr "**", RE.star false RE.ws, RE.lit '[',
    RE.litStrCI "estimated_files", RE.lit ':', RE.star false RE.ws,
    RE.grp 2 (RE.star true RE.anyChar), RE.lit ']']

/-- Loop state of `_parse_task_groups`. -/
structure TGState where
  groups : List TaskGroup
  curGroup : Option (Nat × List String)
  curSteps : List DevPlanStep
  cur : Option (String × String)
  details : List String
deriving Repr

def tgStepsFlush (st : TGState) : List DevPlanStep :=
  match st.cur with
  | none => st.curSteps
  | some (n, d) => st.curSteps ++ [{ number := n, description := d, details := st.details }]

/-- Flush the current group — only appended when it has at least one step
(`if current_group is not None and current_steps:`). -/
def tgGroupFlush (groups : List TaskGroup) (curGroup : Option (Nat × List String))
    (steps : List DevPlanStep) : List TaskGroup :=
  match curGroup with
  | none => groups
  | some (gn, files) =>
    if steps.isEmpty then groups
    else
      let g : TaskGroup :=
        { groupNumber := (gn : Int)
          description := "Task group " ++ toString gn
          estimatedFiles := files
          steps := steps }
      groups ++ [g]

def tgLineStep (phaseNumber : Int) (st : TGState) (line : String) : TGState :=
  let stripped := pyStrip line
  match (match reMatch detailedGroupRE stripped with
    | some (caps, _) =>
      match capGet caps 1, capGet caps 2 with
      | some g1, some g2 => some (digitsToNat g1, pyStrip g2)
      | _, _ => none
    | none => none) with
  | some (gnum, filesStr) =>
    let steps := tgStepsFlush st
    { groups := tgGroupFlush st.groups st.curGroup steps,
      curGroup := some (gnum, (pySplitOn ',' filesStr).filterMap (fun f =>
        if pyStrip f = "" then none else some (pyStrip f))),
      curSteps := [], cur := none, details := [] }
  | none =>
    match stepHeaderMatch phaseNumber stripped with
    | some (subNum, desc) =>
      { st with
        curSteps := tgStepsFlush st
        cur := some (toString phaseNumber ++ "." ++ toString subNum, desc)
        details := [] }
    | none =>
      if pyStartsWith stripped "-" ∧ st.cur.isSome then
        let detail := pyStrip (stripped.drop 1)
        if detail ≠ "" then { st with details := st.details ++ [detail] } else st
      else st

def tgInitState : TGState :=
  { groups := [], curGroup := none, curSteps := [], cur := none, details := [] }

/-- The `DetailedDevPlanGenerator._parse_task_groups` (with the fallback that
wraps a flat parse in a single group when no group header was seen). -/
def parseTaskGroups (response : String) (phaseNumber : Int) : List TaskGroup :=
  let st := (pySplitOn '\n' response).foldl (tgLineStep phaseNumber) tgInitState
  let groups := tgGroupFlush st.groups st.curGroup (tgStepsFlush st)
  if groups.isEmpty then
    let flatSteps := parseSteps response phaseNumber
    if flatSteps.isEmpty then []
    else [{ groupNumber := 1, description := "All tasks for this phase",
            estimatedFiles := [], steps := flatSteps }]
  else groups

/-- The step list `_generate_phase_details` computes from the first
response (flat mode parses steps directly; grouped mode flattens the
parsed groups). -/
def phaseDetailSteps (response : String) (phaseNumber : Int) (taskGrouping : String) :
    List DevPlanStep :=
  if taskGrouping = "grouped" then
    (parseTaskGroups response phaseNumber).flatMap TaskGroup.steps
  else parseSteps response phaseNumber

/-- The guard of the constrained-format re-prompt branch:
`if not response.strip() or not steps:`. -/
def takesRePromptBranch (response : String) (phaseNumber : Int)
    (taskGrouping : String) : Bool :=
  pyStrip response = "" || (phaseDetailSteps response phaseNumber taskGrouping).isEmpty

/-- The phase de-duplication at the head of
`DetailedDevPlanGenerator.generate`: first occurrence of each number wins. -/
def dedupPhases (phases : List DevPlanPhase) : List DevPlanPhase :=
  phases.foldl (fun acc p =>
    if acc.any (fun q => decide (q.number = p.number)) then acc else acc ++ [p]) []

/-- The as-completed collection and re-assembly of `generate`: per-phase
results arrive in an arbitrary completion order and are stored in a dict
keyed by phase number; the final list reads the dict back in the order of
the de-duplicated input phases (`alistGet … = none` would be the `KeyError`
of a missing phase, shown impossible below). -/
def assembleByNumber (completionOrder : List DevPlanPhase) (uniq : List DevPlanPhase) :
    List (Option DevPlanPhase) :=
  let d := completionOrder.foldl (fun m r => alistSet m r.number r) []
  uniq.map (fun p => alistGet d p.number)

/-! ## HiveMind temperature jitter (`src/pipeline/hivemind.py`) -/

/-- The temperature `HiveMindManager._execute_parallel` hands to drone `i`
(`0.4 = 2/5`, `0.5 = 1/2`, and the clamp `max(0.0, min(2.0, …))`, all in
exact rational arithmetic). -/
def droneTemperature (temperatureJitter : Bool) (count : Nat) (baseTemperature : Rat)
    (i : Nat) : Rat :=
  if temperatureJitter = true ∧ 1 < count then
    let offset : Rat :=
      if 1 < count then ((i : Rat) / ((count : Rat) - 1) - 1/2) * (2/5) else 0
    max 0 (min 2 (baseTemperature + offset))
  else baseTemperature

/-! ## Stage coordinator (`src/interview/stage_coordinator.py`) -/

/-- The five pipeline stages (the `Stage` enum). -/
inductive Stage where
  | interview
  | design
  | devplan
  | detailed
  | handoff
deriving DecidableEq, Repr, Fintype

/-- The canonical stage order used by `next_stage`, `prev_stage` and
`reset_from_stage` (the local `order` list in the source). -/
def stageOrder : List Stage :=
  [Stage.interview, Stage.design, Stage.devplan, Stage.detailed, Stage.handoff]

/-- The `Stage.next_stage`: the successor of `s` in `stageOrder`, `none` for the
last stage (`order[idx + 1]` when `idx < len(order) - 1`). -/
def Stage.nextStage (s : Stage) : Option Stage :=
  stageOrder.get? (stageOrder.indexOf s + 1)

/-- The `requires_previous` lists from `_init_stage_configs`. -/
def requiresPrevious : Stage → List Stage
  | Stage.interview => []
  | Stage.design => [Stage.interview]
  | Stage.devplan => [Stage.design]
  | Stage.detailed => [Stage.devplan]
  | Stage.handoff => [Stage.detailed]

/-- The mutable state of a `StageCoordinator`: `_current_stage`,
`_completed_stages` and `_stage_outputs` (output values are abstract). -/
structure CoordState (α : Type) where
  current : Stage
  completed : List Stage
  outputs : List (Stage × α)
deriving DecidableEq, Repr

/-- The `StageCoordinator.mark_complete`: idempotently append the stage to the
completed list and store the output when one is given. -/
def markComplete {α : Type} (st : CoordState α) (stage : Stage) (output : Option α) :
    CoordState α :=
  let completed := if stage ∈ st.completed then st.completed else st.completed ++ [stage]
  let outputs :=
    match output with
    | some o => alistSet st.outputs stage o
    | none => st.outputs
  { st with completed := completed, outputs := outputs }

/-- The `StageCoordinator.advance_stage`. The triple is (returned value, state
after the call, stage-change notification fired with `(old, new)`). -/
def advanceStage {α : Type} (st : CoordState α) :
    Option Stage × CoordState α × Option (Stage × Stage) :=
  if st.current ∈ st.completed then
    match st.current.nextStage with
    | none => (none, st, none)
    | some nxt =>
      if (requiresPrevious nxt).all (fun r => decide (r ∈ st.completed)) then
        (some nxt, { st with current := nxt }, some (st.current, nxt))
      else
        (none, st, none)
  else
    (none, st, none)

/-- The `StageCoordinator.reset_from_stage`: clear completion status and outputs
for the stage and all following stages, and rewind the current pointer.
(`order.index(stage)` cannot raise for an enum member, so the `ValueError`
branch is dead; `list.remove`/`del` are guarded by membership tests, which
`pyRemove`/`alistDel` subsume.) -/
def resetFromStage {α : Type} (st : CoordState α) (stage : Stage) : CoordState α :=
  let toClear := stageOrder.drop (stageOrder.indexOf stage)
  { st with
    current := stage
    completed := toClear.foldl (fun c s => pyRemove c s) st.completed
    outputs := toClear.foldl (fun o s => alistDel o s) st.outputs }

/-! ### Helper lemmas for the coordinator -/

theorem mem_of_mem_pyRemove {β : Type} [DecidableEq β] (l : List β) (v t : β) :
    t ∈ pyRemove l v → t ∈ l := by
  induction l with
  | nil => simp [pyRemove]
  | cons x rest ih =>
    by_cases hx : x = v
    · simp only [pyRemove, if_pos hx]
      intro hm
      exact List.mem_cons_of_mem _ hm
    · simp only [pyRemove, if_neg hx, List.mem_cons]
      rintro (rfl | hm)
      · exact Or.inl rfl
      · exact Or.inr (ih hm)

theorem pyRemove_nodup {β : Type} [DecidableEq β] (l : List β) (v : β) (h : l.Nodup) :
    (pyRemove l v).Nodup := by
  induction l with
  | nil => simp [pyRemove]
  | cons x rest ih =>
    rw [List.nodup_cons] at h
    by_cases hx : x = v
    · simpa [pyRemove, hx] using h.2
    · simp only [pyRemove, if_neg hx, List.nodup_cons]
      exact ⟨fun hm => h.1 (mem_of_mem_pyRemove rest v x hm), ih h.2⟩

theorem mem_pyRemove_of_nodup {β : Type} [DecidableEq β] (l : List β) (v t : β)
    (h : l.Nodup) : t ∈ pyRemove l v ↔ t ∈ l ∧ t ≠ v := by
  induction l with
  | nil => simp [pyRemove]
  | cons x rest ih =>
    rw [List.nodup_cons] at h
    by_cases hx : x = v
    · subst hx
      simp only [pyRemove, if_pos rfl, List.mem_cons]
      constructor
      · intro ht
        exact ⟨Or.inr ht, fun hv => h.1 (hv ▸ ht)⟩
      · rintro ⟨rfl | ht, hne⟩
        · exact absurd rfl hne
        · exact ht
    · simp only [pyRemove, if_neg hx, List.mem_cons, ih h.2]
      constructor
      · rintro (rfl | ⟨ht, hne⟩)
        · exact ⟨Or.inl rfl, hx⟩
        · exact ⟨Or.inr ht, hne⟩
      · rintro ⟨rfl | ht, hne⟩
        · exact Or.inl rfl
        · exact Or.inr ⟨ht, hne⟩

theorem mem_foldl_pyRemove {β : Type} [DecidableEq β] (toClear : List β) :
    ∀ (c : List β), c.Nodup → ∀ t,
      (t ∈ toClear.foldl (fun acc s => pyRemove acc s) c ↔ t ∈ c ∧ t ∉ toClear) := by
  induction toClear with
  | nil => intro c _ t; simp
  | cons s rest ih =>
    intro c hc t
    simp only [List.foldl_cons]
    rw [ih (pyRemove c s) (pyRemove_nodup c s hc) t,
      mem_pyRemove_of_nodup c s t hc, List.mem_cons]
    constructor
    · rintro ⟨⟨hm, hne⟩, hnr⟩
      exact ⟨hm, fun hmem => by
        rcases hmem with rfl | hmem
        · exact hne rfl
        · exact hnr hmem⟩
    · rintro ⟨hm, hni⟩
      exact ⟨⟨hm, fun hv => hni (Or.inl hv)⟩, fun hr => hni (Or.inr hr)⟩

theorem alistGet_alistDel {K V : Type} [DecidableEq K] (d : List (K × V)) (key t : K) :
    alistGet (alistDel d key) t = if t = key then none else alistGet d t := by
  induction d with
  | nil => simp [alistDel, alistGet]
  | cons p rest ih =>
    by_cases hp : p.1 = key
    · have hfilter : alistDel (p :: rest) key = alistDel rest key := by
        simp [alistDel, List.filter_cons, hp]
      rw [hfilter, ih]
      by_cases ht : t = key
      · simp [ht]
      · rw [if_neg ht, if_neg ht]
        simp only [alistGet]
        rw [if_neg (fun h : p.1 = t => ht (h ▸ hp))]
    · have hfilter : alistDel (p :: rest) key = p :: alistDel rest key := by
        simp [alistDel, List.filter_cons, hp]
      rw [hfilter]
      simp only [alistGet]
      by_cases hpt : p.1 = t
      · have htk : ¬t = key := fun h => hp (hpt.trans h)
        simp only [if_pos hpt, if_neg htk]
      · simp only [if_neg hpt]
        rw [ih]

theorem alistGet_foldl_alistDel {K V : Type} [DecidableEq K] (toClear : List K) :
    ∀ (d : List (K × V)) (t : K),
      alistGet (toClear.foldl (fun acc s => alistDel acc s) d) t =
        if t ∈ toClear then none else alistGet d t := by
  induction toClear with
  | nil => intro d t; simp
  | cons s rest ih =>
    intro d t
    simp only [List.foldl_cons]
    rw [ih (alistDel d s) t, alistGet_alistDel d s t]
    by_cases hr : t ∈ rest
    · simp [hr, List.mem_cons]
    · by_cases hs : t = s
      · simp [hs, hr, List.mem_cons]
      · simp [hs, hr, List.mem_cons]

theorem mem_drop_indexOf_iff (stage t : Stage) :
    t ∈ stageOrder.drop (stageOrder.indexOf stage) ↔
      stageOrder.indexOf stage ≤ stageOrder.indexOf t := by
  revert stage t; decide

/-! ### Claim theorems C1 and C7 -/

/-- C1. `StageCoordinator.advance_stage()` is a no-op (returns `None`, leaves
the state unchanged, fires no notification) whenever the current stage is not
in the completed set, or the current stage is the terminal HANDOFF stage, or
some stage in the successor's `requires_previous` set is not completed;
otherwise it moves the current pointer to the immediate successor in the
order INTERVIEW, DESIGN, DEVPLAN, DETAILED, HANDOFF, fires the stage-change
notification with the old and new stage, and returns the new stage. -/
theorem advance_stage_spec {α : Type} (st : CoordState α) :
    (st.current ∉ st.completed → advanceStage st = (none, st, none)) ∧
    (st.current = Stage.handoff → advanceStage st = (none, st, none)) ∧
    (∀ nxt, st.current.nextStage = some nxt →
      (∃ r ∈ requiresPrevious nxt, r ∉ st.completed) →
      advanceStage st = (none, st, none)) ∧
    (∀ nxt, st.current ∈ st.completed → st.current.nextStage = some nxt →
      (∀ r ∈ requiresPrevious nxt, r ∈ st.completed) →
      advanceStage st = (some nxt, { st with current := nxt }, some (st.current, nxt))) ∧
    (Stage.interview.nextStage = some Stage.design ∧
      Stage.design.nextStage = some Stage.devplan ∧
      Stage.devplan.nextStage = some Stage.detailed ∧
      Stage.detailed.nextStage = some Stage.handoff ∧
      Stage.handoff.nextStage = none) := by
  refine ⟨fun h => ?_, fun h => ?_, fun nxt hn hex => ?_, fun nxt hc hn hall => ?_, by decide⟩
  · simp [advanceStage, h]
  · by_cases hc : st.current ∈ st.completed
    · have hnone : st.current.nextStage = none := by rw [h]; decide
      simp [advanceStage, hc, hnone]
    · simp [advanceStage, hc]
  · by_cases hc : st.current ∈ st.completed
    · have hfail : (requiresPrevious nxt).all (fun r => decide (r ∈ st.completed)) = false := by
        rcases hex with ⟨r, hr, hrn⟩
        apply List.all_eq_false.mpr
        exact ⟨r, hr, by simpa using hrn⟩
      simp [advanceStage, hc, hn, hfail]
    · simp [advanceStage, hc]
  · have hall' : (requiresPrevious nxt).all (fun r => decide (r ∈ st.completed)) = true := by
      apply List.all_eq_true.mpr
      intro r hr
      simpa using hall r hr
    simp [advanceStage, hc, hn, hall']

/-- Witness for C1: with INTERVIEW completed, advancing moves to DESIGN and
fires the notification. -/
theorem advance_stage_spec_witness :
    advanceStage (⟨Stage.interview, [Stage.interview], []⟩ : CoordState Nat) =
      (some Stage.design, ⟨Stage.design, [Stage.interview], []⟩,
        some (Stage.interview, Stage.design)) :=
  (advance_stage_spec ⟨Stage.interview, [Stage.interview], []⟩).2.2.2.1
    Stage.design (by decide) (by decide) (by decide)

/-- C7. For every coordinator state with duplicate-free completed list (an
invariant of all reachable states, since `mark_complete` appends only new
stages), `reset_from_stage(s)` removes `s` and every stage at or after `s` in
the canonical order from the completed set and from the output map, sets the
current stage to `s`, and leaves the completion status and stored output of
every earlier stage unchanged. -/
theorem reset_from_stage_spec {α : Type} (st : CoordState α) (stage : Stage)
    (h : st.completed.Nodup) :
    (resetFromStage st stage).current = stage ∧
    (∀ t : Stage, stageOrder.indexOf stage ≤ stageOrder.indexOf t →
      t ∉ (resetFromStage st stage).completed ∧
      alistGet (resetFromStage st stage).outputs t = none) ∧
    (∀ t : Stage, stageOrder.indexOf t < stageOrder.indexOf stage →
      ((t ∈ (resetFromStage st stage).completed) ↔ t ∈ st.completed) ∧
      alistGet (resetFromStage st stage).outputs t = alistGet st.outputs t) := by
  refine ⟨rfl, fun t ht => ⟨?_, ?_⟩, fun t ht => ⟨?_, ?_⟩⟩
  · intro hmem
    have := (mem_foldl_pyRemove _ st.completed h t).mp hmem
    exact this.2 ((mem_drop_indexOf_iff stage t).mpr ht)
  · rw [show (resetFromStage st stage).outputs =
        (stageOrder.drop (stageOrder.indexOf stage)).foldl
          (fun acc s => alistDel acc s) st.outputs from rfl,
      alistGet_foldl_alistDel]
    rw [if_pos ((mem_drop_indexOf_iff stage t).mpr ht)]
  · rw [show (resetFromStage st stage).completed =
        (stageOrder.drop (stageOrder.indexOf stage)).foldl
          (fun acc s => pyRemove acc s) st.completed from rfl,
      mem_foldl_pyRemove _ st.completed h t]
    constructor
    · exact fun hp => hp.1
    · intro hm
      refine ⟨hm, fun hdrop => ?_⟩
      have := (mem_drop_indexOf_iff stage t).mp hdrop
      omega
  · rw [show (resetFromStage st stage).outputs =
        (stageOrder.drop (stageOrder.indexOf stage)).foldl
          (fun acc s => alistDel acc s) st.outputs from rfl,
      alistGet_foldl_alistDel]
    rw [if_neg (fun hdrop => by
      have := (mem_drop_indexOf_iff stage t).mp hdrop
      omega)]

/-- Witness for C7: the spec scenario. After INTERVIEW, DESIGN and DEVPLAN
are complete with stored outputs, `reset_from_stage(DESIGN)` clears DESIGN
and DEVPLAN, sets the current stage to DESIGN, and leaves INTERVIEW's stored
output intact. -/
theorem reset_from_stage_spec_witness :
    (resetFromStage
      (⟨Stage.devplan, [Stage.interview, Stage.design, Stage.devplan],
        [(Stage.interview, "reqs"), (Stage.design, "design"), (Stage.devplan, "plan")]⟩ :
        CoordState String) Stage.design).current = Stage.design ∧
    Stage.design ∉ (resetFromStage
      (⟨Stage.devplan, [Stage.interview, Stage.design, Stage.devplan],
        [(Stage.interview, "reqs"), (Stage.design, "design"), (Stage.devplan, "plan")]⟩ :
        CoordState String) Stage.design).completed ∧
    Stage.devplan ∉ (resetFromStage
      (⟨Stage.devplan, [Stage.interview, Stage.design, Stage.devplan],
        [(Stage.interview, "reqs"), (Stage.design, "design"), (Stage.devplan, "plan")]⟩ :
        CoordState String) Stage.design).completed ∧
    alistGet (resetFromStage
      (⟨Stage.devplan, [Stage.interview, Stage.design, Stage.devplan],
        [(Stage.interview, "reqs"), (Stage.design, "design"), (Stage.devplan, "plan")]⟩ :
        CoordState String) Stage.design).outputs Stage.interview = some "reqs" := by
  have h := reset_from_stage_spec
    (⟨Stage.devplan, [Stage.interview, Stage.design, Stage.devplan],
      [(Stage.interview, "reqs"), (Stage.design, "design"), (Stage.devplan, "plan")]⟩ :
      CoordState String) Stage.design (by decide)
  refine ⟨h.1, (h.2.1 Stage.design (by decide)).1, (h.2.1 Stage.devplan (by decide)).1, ?_⟩
  rw [(h.2.2 Stage.interview (by decide)).2]
  rfl

/-! ## Claim C8: hive-mind temperature jitter -/

/-- C8. In a swarm of `k` drones with jitter enabled, drone `i` runs at
`clamp(base + (i/(k-1) - 0.5) * 0.4, 0, 2)`; the offsets range linearly
across `[-0.2, +0.2]` (attained at the first and last drone) and with
`k = 1` the single drone runs at exactly the base temperature. -/
theorem hivemind_temperature_jitter (k : Nat) (base : Rat) (i : Nat)
    (hk : 1 < k) (hi : i < k) :
    droneTemperature true k base i =
      max 0 (min 2 (base + ((i : Rat) / ((k : Rat) - 1) - 1/2) * (2/5))) ∧
    -(1/5) ≤ ((i : Rat) / ((k : Rat) - 1) - 1/2) * (2/5) ∧
    ((i : Rat) / ((k : Rat) - 1) - 1/2) * (2/5) ≤ 1/5 ∧
    (i = 0 → ((i : Rat) / ((k : Rat) - 1) - 1/2) * (2/5) = -(1/5)) ∧
    (i = k - 1 → ((i : Rat) / ((k : Rat) - 1) - 1/2) * (2/5) = 1/5) ∧
    (∀ b : Rat, ∀ j : Nat, droneTemperature true 1 b j = b) := by
  have hd : (0 : Rat) < (k : Rat) - 1 := by
    have h1 : (1 : Rat) < (k : Rat) := by exact_mod_cast hk
    linarith
  have hq0 : (0 : Rat) ≤ (i : Rat) / ((k : Rat) - 1) :=
    div_nonneg (Nat.cast_nonneg i) (le_of_lt hd)
  have hq1 : (i : Rat) / ((k : Rat) - 1) ≤ 1 := by
    rw [div_le_one hd]
    have h2 : (i : Rat) + 1 ≤ (k : Rat) := by exact_mod_cast hi
    linarith
  refine ⟨?_, by nlinarith, by nlinarith, fun h0 => ?_, fun hlast => ?_, fun b j => ?_⟩
  · simp [droneTemperature, hk]
  · subst h0
    norm_num
  · subst hlast
    have hcast : ((k - 1 : Nat) : Rat) = (k : Rat) - 1 := by
      push_cast [Nat.cast_sub (Nat.one_le_of_lt hk)]
      ring
    rw [hcast, div_self (ne_of_gt hd)]
    norm_num
  · simp [droneTemperature]

/-- Witness for C8: with 3 drones at base temperature 0.7, drone 0 runs at
0.5, and a 1-drone swarm runs at the base temperature. -/
theorem hivemind_temperature_jitter_witness :
    droneTemperature true 3 (7/10) 0 = 1/2 ∧ droneTemperature true 1 (7/10) 0 = 7/10 := by
  have h := hivemind_temperature_jitter 3 (7/10) 0 (by norm_num) (by norm_num)
  constructor
  · rw [h.1]
    norm_num
  · exact h.2.2.2.2.2 (7/10) 0

/-! ## Claim C10: step parsing never yields an empty step list -/

theorem parseSteps_ne_nil (response : String) (p : Int) : parseSteps response p ≠ [] := by
  unfold parseSteps
  cases h : (stepsFlush ((pySplitOn '\n' response).foldl (stepsLineStep p) stepsInitState)) with
  | nil => simp
  | cons a as => simp

theorem mem_tgGroupFlush (groups : List TaskGroup) (cg : Option (Nat × List String))
    (steps : List DevPlanStep) (g : TaskGroup) (hg : g ∈ tgGroupFlush groups cg steps) :
    g ∈ groups ∨ g.steps = steps ∧ steps ≠ [] := by
  cases cg with
  | none => exact Or.inl hg
  | some x =>
    cases x with
    | mk gn files =>
      cases hs : steps with
      | nil =>
        rw [hs] at hg
        simp only [tgGroupFlush, List.isEmpty_nil, if_true] at hg
        exact Or.inl hg
      | cons s ss =>
        rw [hs] at hg
        simp only [tgGroupFlush, List.isEmpty_cons, Bool.false_eq_true, if_false,
          List.mem_append, List.mem_singleton] at hg
        rcases hg with h1 | h2
        · exact Or.inl h1
        · exact Or.inr ⟨by rw [h2], by simp⟩

theorem tgLineStep_groups (p : Int) (st : TGState) (l : String) (g : TaskGroup)
    (hg : g ∈ (tgLineStep p st l).groups) : g ∈ st.groups ∨ g.steps ≠ [] := by
  simp only [tgLineStep] at hg
  split at hg
  · rcases mem_tgGroupFlush _ _ _ _ hg with h1 | ⟨h2, h3⟩
    · exact Or.inl h1
    · exact Or.inr (by rw [h2]; exact h3)
  · split at hg
    · exact Or.inl hg
    · split at hg
      · split at hg
        · exact Or.inl hg
        · exact Or.inl hg
      · exact Or.inl hg

theorem tg_fold_groups_nonempty (p : Int) :
    ∀ (lines : List String) (st : TGState),
      (∀ g ∈ st.groups, g.steps ≠ []) →
      ∀ g ∈ (lines.foldl (tgLineStep p) st).groups, g.steps ≠ [] := by
  intro lines
  induction lines with
  | nil => intro st h; exact h
  | cons l ls ih =>
    intro st h
    simp only [List.foldl_cons]
    apply ih
    intro g hg
    rcases tgLineStep_groups p st l g hg with h1 | h2
    · exact h g h1
    · exact h2

theorem parseTaskGroups_flatten_ne_nil (response : String) (p : Int) :
    (parseTaskGroups response p).flatMap TaskGroup.steps ≠ [] := by
  unfold parseTaskGroups
  set st := (pySplitOn '\n' response).foldl (tgLineStep p) tgInitState with hst
  have hgs : ∀ g ∈ tgGroupFlush st.groups st.curGroup (tgStepsFlush st), g.steps ≠ [] := by
    intro g hg
    rcases mem_tgGroupFlush _ _ _ _ hg with h1 | ⟨h2, h3⟩
    · exact tg_fold_groups_nonempty p (pySplitOn '\n' response) tgInitState
        (by intro g hg0; simp [tgInitState] at hg0) g h1
    · rw [h2]; exact h3
  cases hgrps : tgGroupFlush st.groups st.curGroup (tgStepsFlush st) with
  | nil =>
    simp only [hgrps]
    cases hflat : parseSteps response p with
    | nil => exact absurd hflat (parseSteps_ne_nil response p)
    | cons s ss => simp [hflat]
  | cons g gs =>
    have hne : g.steps ≠ [] := hgs g (by rw [hgrps]; exact List.mem_cons_self g gs)
    simp only [hgrps, List.isEmpty_cons, Bool.false_eq_true, if_false, List.flatMap_cons]
    intro hc
    rw [List.append_eq_nil] at hc
    exact hne hc.1

/-- C10. For every response and phase number, `_parse_steps` returns a
non-empty list (synthesizing the placeholder `p.1: Implement phase
requirements` when nothing matches); the flattened grouped parse is also
non-empty; consequently the constrained-format re-prompt branch of
`_generate_phase_details` (`if not response.strip() or not steps`) is taken
exactly when the raw response is empty or whitespace, never merely because
the text failed to parse. -/
theorem phase_details_reprompt_only_on_blank (response : String) (p : Int)
    (taskGrouping : String) :
    parseSteps response p ≠ [] ∧
    phaseDetailSteps response p taskGrouping ≠ [] ∧
    (takesRePromptBranch response p taskGrouping = true ↔ pyStrip response = "") ∧
    (∀ r' : String, parseSteps r' p = [] → False) := by
  have hflat := parseSteps_ne_nil response p
  have hsteps : phaseDetailSteps response p taskGrouping ≠ [] := by
    unfold phaseDetailSteps
    by_cases hg : taskGrouping = "grouped"
    · simp only [if_pos hg]
      exact parseTaskGroups_flatten_ne_nil response p
    · simp only [if_neg hg]
      exact hflat
  refine ⟨hflat, hsteps, ?_, fun r' h => parseSteps_ne_nil r' p h⟩
  unfold takesRePromptBranch
  cases hs : phaseDetailSteps response p taskGrouping with
  | nil => exact absurd hs hsteps
  | cons a as =>
    simp [hs]

/-! ## Claim C6: step numbers are anchored to the caller's phase number -/

/-- The step labels (`int(m.group(1))`) matched for phase `p`, in line
order. -/
def stepLabels (response : String) (p : Int) : List Nat :=
  (pySplitOn '\n' response).filterMap (fun l => (stepHeaderMatch p (pyStrip l)).map Prod.fst)

theorem stepsFlush_set_details_map_number (st : StepsState) (X : List String) :
    (stepsFlush { st with details := X }).map DevPlanStep.number =
      (stepsFlush st).map DevPlanStep.number := by
  cases h : st.cur with
  | none => simp [stepsFlush, h]
  | some x => cases x with | mk n d => simp [stepsFlush, h]

theorem stepsLineStep_numbers (p : Int) (st : StepsState) (l : String) :
    (stepsFlush (stepsLineStep p st l)).map DevPlanStep.number =
      (stepsFlush st).map DevPlanStep.number ++
        ((stepHeaderMatch p (pyStrip l)).map (fun x =>
          toString p ++ "." ++ toString x.1)).toList := by
  unfold stepsLineStep
  cases h : stepHeaderMatch p (pyStrip l) with
  | some x =>
    cases x with
    | mk n d => simp [stepsFlush, h]
  | none =>
    simp only [h, Option.map_none', Option.toList_none, List.append_nil]
    by_cases hb : pyStartsWith (pyStrip l) "-" ∧ st.cur.isSome
    · simp only [if_pos hb]
      by_cases hd : pyStrip ((pyStrip l).drop 1) ≠ ""
      · simp only [if_pos hd]
        exact stepsFlush_set_details_map_number st _
      · simp only [if_neg hd]
    · simp only [if_neg hb]

theorem steps_fold_numbers (p : Int) :
    ∀ (lines : List String) (st : StepsState),
      (stepsFlush (lines.foldl (stepsLineStep p) st)).map DevPlanStep.number =
        (stepsFlush st).map DevPlanStep.number ++
          (lines.filterMap (fun l => (stepHeaderMatch p (pyStrip l)).map Prod.fst)).map
            (fun n => toString p ++ "." ++ toString n) := by
  intro lines
  induction lines with
  | nil => intro st; simp
  | cons l ls ih =>
    intro st
    simp only [List.foldl_cons, List.filterMap_cons]
    rw [ih (stepsLineStep p st l), stepsLineStep_numbers p st l]
    cases h : stepHeaderMatch p (pyStrip l) with
    | some x => simp [h, List.append_assoc]
    | none => simp [h]

/-- C6 (amended). Every step returned by the step-detail parser for phase
`p` carries a number of the form `p.n` — lines labeled with any other phase
number are silently ignored — and the returned numbers are exactly the
matched labels in their order of appearance in the response (with the
placeholder `p.1` when nothing matched); the same holds for
`extract_phase_data`.  (Strict increase of the sub-numbers is *not*
enforced: see the counterexample.) -/
theorem step_numbers_spec (response : String) (p : Int) :
    ((parseSteps response p).map DevPlanStep.number =
      if (stepLabels response p).isEmpty then [toString p ++ ".1"]
      else (stepLabels response p).map (fun n => toString p ++ "." ++ toString n)) ∧
    (∀ s ∈ parseSteps response p, ∃ n : Nat,
      s.number = toString p ++ "." ++ toString n) ∧
    ((extractPhaseData response p).map (fun t => t.1) =
      (stepLabels response p).map (fun n => toString p ++ "." ++ toString n)) := by
  have hfold := steps_fold_numbers p (pySplitOn '\n' response) stepsInitState
  have hinit : (stepsFlush stepsInitState).map DevPlanStep.number = [] := by
    simp [stepsFlush, stepsInitState]
  rw [hinit, List.nil_append] at hfold
  have hmain : (parseSteps response p).map DevPlanStep.number =
      if (stepLabels response p).isEmpty then [toString p ++ ".1"]
      else (stepLabels response p).map (fun n => toString p ++ "." ++ toString n) := by
    unfold parseSteps
    cases hS : stepsFlush ((pySplitOn '\n' response).foldl (stepsLineStep p) stepsInitState) with
    | nil =>
      rw [hS] at hfold
      have hlab : (stepLabels response p) = [] := by
        have := hfold.symm
        simpa [stepLabels] using List.map_eq_nil_iff.mp this
      simp [hlab]
    | cons a as =>
      rw [hS] at hfold
      have hlab : ¬ (stepLabels response p).isEmpty = true := by
        intro hemp
        rw [List.isEmpty_iff] at hemp
        rw [show stepLabels response p =
          (pySplitOn '\n' response).filterMap
            (fun l => (stepHeaderMatch p (pyStrip l)).map Prod.fst) from rfl] at hemp
        rw [hemp] at hfold
        simp at hfold
      rw [if_neg hlab,
        show stepLabels response p =
          (pySplitOn '\n' response).filterMap
            (fun l => (stepHeaderMatch p (pyStrip l)).map Prod.fst) from rfl]
      exact hfold
  refine ⟨hmain, ?_, ?_⟩
  · intro s hs
    have hmem : s.number ∈ (parseSteps response p).map DevPlanStep.number :=
      List.mem_map_of_mem DevPlanStep.number hs
    rw [hmain] at hmem
    by_cases hemp : (stepLabels response p).isEmpty
    · rw [if_pos hemp] at hmem
      simp only [List.mem_singleton] at hmem
      refine ⟨1, ?_⟩
      rw [hmem, String.append_assoc]
      exact congrArg (fun x => toString p ++ x) (by decide)
    · rw [if_neg hemp] at hmem
      rw [List.mem_map] at hmem
      rcases hmem with ⟨n, _, hn⟩
      exact ⟨n, hn.symm⟩
  · unfold extractPhaseData
    rw [List.map_map]
    have : ((fun t => t.1) ∘ fun s : DevPlanStep => (s.number, s.description, s.details)) =
        DevPlanStep.number := by
      funext s
      rfl
    rw [this, hfold]
    rfl

/-- Counterexample for C6 as frozen: for the response `1.2: b\n1.1: a` the
parser returns the steps labeled 1.2 then 1.1 in appearance order, whose
sub-numbers `[2, 1]` are not strictly increasing. -/
theorem step_numbers_not_increasing_counterexample :
    (parseSteps "1.2: b\n1.1: a" 1).map DevPlanStep.number = ["1.2", "1.1"] ∧
    ¬ List.Chain' (fun a b => a < b)
      ((parseSteps "1.2: b\n1.1: a" 1).map
        (fun s => digitsToNat ((pySplitOn '.' s.number).getD 1 ""))) := by
  constructor
  · rfl
  · intro h
    have heq : ((parseSteps "1.2: b\n1.1: a" 1).map
        (fun s => digitsToNat ((pySplitOn '.' s.number).getD 1 ""))) = [2, 1] := rfl
    rw [heq] at h
    simp at h

/-- Witness for C6: a well-formed response; the numbers are the labels in
order, and a returned step's number has the form `1.n`. -/
theorem step_numbers_spec_witness :
    (parseSteps "1.1: a\n1.3: b" 1).map DevPlanStep.number = ["1.1", "1.3"] ∧
    (∃ n : Nat,
      ({ number := "1.1", description := "a" } : DevPlanStep).number =
        toString (1 : Int) ++ "." ++ toString n) := by
  constructor
  · exact (step_numbers_spec "1.1: a\n1.3: b" 1).1.trans (by rfl)
  · exact (step_numbers_spec "1.1: a\n1.3: b" 1).2.1
      { number := "1.1", description := "a" } (by decide)

/-- Witness for C10 (the conjunct quantifying over responses instantiated at
the empty response). -/
theorem phase_details_reprompt_witness :
    parseSteps "" 1 ≠ [] ∧ (takesRePromptBranch "" 1 "flat" = true ↔ pyStrip "" = "") := by
  have h := phase_details_reprompt_only_on_blank "" 1 "flat"
  exact ⟨h.1, h.2.2.1⟩

/-! ## Claim C2: the flat parser renumbers phases contiguously from 1 -/

def flatNums (st : FlatState) : List Int := (flatFlush st).map DevPlanPhase.number

/-- Lines whose stripped text matches one of the flat phase patterns. -/
def flatHeaderCount (r : String) : Nat :=
  (pySplitOn '\n' r).countP (fun l => (phaseHeaderMatch flatPhasePatterns (pyStrip l)).isSome)

def seqNumsFrom (base k : Nat) : List Int :=
  (List.range k).map (fun j => ((base + j : Nat) : Int))

theorem seqNumsFrom_succ (base k : Nat) :
    seqNumsFrom base (k + 1) = ((base : Nat) : Int) :: seqNumsFrom (base + 1) k := by
  unfold seqNumsFrom
  rw [List.range_succ_eq_map, List.map_cons, List.map_map]
  refine congrArg₂ List.cons (by simp) ?_
  apply List.map_congr_left
  intro j _
  simp only [Function.comp_apply, Nat.succ_eq_add_one]
  omega

theorem flatNums_desc_items (st : FlatState) (d : String) (its : List String) :
    flatNums { st with desc := d, items := its } = flatNums st := by
  cases hc : st.cur with
  | none => simp [flatNums, flatFlush, hc]
  | some x => cases x with | mk n t => simp [flatNums, flatFlush, hc]

theorem flatStep_header (st : FlatState) (l : String) (x : Nat × String)
    (h : phaseHeaderMatch flatPhasePatterns (pyStrip l) = some x) :
    flatNums (flatStep st l) = flatNums st ++ [((st.nextNum : Nat) : Int)] ∧
    (flatStep st l).nextNum = st.nextNum + 1 := by
  cases x with
  | mk n t =>
    constructor
    · simp only [flatStep, h, flatNums, flatFlush]
      cases hc : st.cur with
      | none => simp [hc]
      | some y => cases y with | mk m s => simp [hc]
    · simp only [flatStep, h]

theorem flatStep_nonheader (st : FlatState) (l : String)
    (h : phaseHeaderMatch flatPhasePatterns (pyStrip l) = none) :
    ∃ d its, flatStep st l = { st with desc := d, items := its } := by
  unfold flatStep
  simp only [h]
  split
  · split
    · split
      · exact ⟨_, st.items, rfl⟩
      · exact ⟨st.desc, st.items, rfl⟩
    · split
      · exact ⟨st.desc, _, rfl⟩
      · exact ⟨st.desc, st.items, rfl⟩
  · split
    · exact ⟨_, st.items, rfl⟩
    · exact ⟨st.desc, st.items, rfl⟩

theorem flat_fold_spec :
    ∀ (lines : List String) (st : FlatState),
      flatNums (lines.foldl flatStep st) =
        flatNums st ++ seqNumsFrom st.nextNum
          (lines.countP (fun l => (phaseHeaderMatch flatPhasePatterns (pyStrip l)).isSome)) ∧
      (lines.foldl flatStep st).nextNum =
        st.nextNum +
          lines.countP (fun l => (phaseHeaderMatch flatPhasePatterns (pyStrip l)).isSome) := by
  intro lines
  induction lines with
  | nil => intro st; simp [seqNumsFrom]
  | cons l ls ih =>
    intro st
    simp only [List.foldl_cons]
    cases h : phaseHeaderMatch flatPhasePatterns (pyStrip l) with
    | some x =>
      have hcnt : (l :: ls).countP
          (fun u => (phaseHeaderMatch flatPhasePatterns (pyStrip u)).isSome) =
          ls.countP (fun u => (phaseHeaderMatch flatPhasePatterns (pyStrip u)).isSome) + 1 := by
        simp [List.countP_cons, h]
      have hh := flatStep_header st l x h
      have hi := ih (flatStep st l)
      rw [hh.2] at hi
      rw [hcnt]
      constructor
      · rw [hi.1, hh.1, List.append_assoc, seqNumsFrom_succ]
        rfl
      · rw [hi.2]
        omega
    | none =>
      have hcnt : (l :: ls).countP
          (fun u => (phaseHeaderMatch flatPhasePatterns (pyStrip u)).isSome) =
          ls.countP (fun u => (phaseHeaderMatch flatPhasePatterns (pyStrip u)).isSome) := by
        simp [List.countP_cons, h]
      obtain ⟨d, its, hst⟩ := flatStep_nonheader st l h
      have hi := ih (flatStep st l)
      rw [hcnt]
      constructor
      · rw [hi.1, hst, flatNums_desc_items]
      · rw [hi.2, hst]

/-- C2. For every devplan response, the flat parser emits phases whose
numbers are exactly `1, 2, …, len` in order — the numbering the LLM text
carried is ignored — and when the (log-entry-extracted) response contains
`N ≥ 1` recognizable phase-header lines the parser yields exactly `N`
phases (and at least one phase in every case). -/
theorem flat_parser_phase_numbers (response projectName r : String)
    (hr : extractTextFromLogEntries response = some r) :
    ∃ plan, parseFlatResponse response projectName = some plan ∧
      plan.phases.map DevPlanPhase.number =
        (List.range plan.phases.length).map (fun j => ((1 + j : Nat) : Int)) ∧
      (0 < flatHeaderCount r → plan.phases.length = flatHeaderCount r) ∧
      plan.phases ≠ [] := by
  have hfold := flat_fold_spec (pySplitOn '\n' r) flatInitState
  have hinit : flatNums flatInitState = [] := by simp [flatNums, flatFlush, flatInitState]
  rw [hinit, List.nil_append] at hfold
  have h1 := hfold.1
  rw [show flatNums ((pySplitOn '\n' r).foldl flatStep flatInitState) =
    (flatFlush ((pySplitOn '\n' r).foldl flatStep flatInitState)).map
      DevPlanPhase.number from rfl] at h1
  cases hS : flatFlush ((pySplitOn '\n' r).foldl flatStep flatInitState) with
  | nil =>
    rw [hS] at h1
    have hzero : flatHeaderCount r = 0 := by
      have hlen := congrArg List.length h1
      simp only [List.length_nil, seqNumsFrom, List.length_map, List.length_range] at hlen
      exact hlen.symm
    refine ⟨{ phases := [{ number := 1, title := "Implementation", steps := [] }],
              summary := some ("Development plan for " ++ projectName ++ " with " ++
                toString (1 : Nat) ++ " phases") }, ?_, ?_, ?_, ?_⟩
    · rw [parseFlatResponse, hr, Option.map_some']
      simp [hS]
    · simp [List.range_succ]
    · intro hpos
      rw [hzero] at hpos
      omega
    · simp
  | cons a as =>
    rw [hS] at h1
    have hlen : (a :: as).length = flatHeaderCount r := by
      have hl := congrArg List.length h1
      simpa only [List.length_map, seqNumsFrom, List.length_range] using hl
    refine ⟨{ phases := a :: as,
              summary := some ("Development plan for " ++ projectName ++ " with " ++
                toString (a :: as).length ++ " phases") }, ?_, ?_, fun _ => hlen, by simp⟩
    · rw [parseFlatResponse, hr, Option.map_some']
      simp [hS]
    · show (a :: as).map DevPlanPhase.number =
        (List.range (a :: as).length).map (fun j => ((1 + j : Nat) : Int))
      rw [h1, show (List.countP
          (fun l => (phaseHeaderMatch flatPhasePatterns (pyStrip l)).isSome)
          (pySplitOn '\n' r)) = flatHeaderCount r from rfl, ← hlen]
      rfl

/-- Witness for C2: a response whose text is numbered 7 and 9 still yields
phases numbered 1 and 2. -/
theorem flat_parser_phase_numbers_witness :
    ∃ plan, parseFlatResponse "Phase 7: A\nPhase 9: B" "proj" = some plan ∧
      plan.phases.map DevPlanPhase.number = [1, 2] := by
  obtain ⟨plan, h1, h2, h3, _⟩ := flat_parser_phase_numbers "Phase 7: A\nPhase 9: B" "proj"
    "Phase 7: A\nPhase 9: B" (by rfl)
  refine ⟨plan, h1, ?_⟩
  have hc : flatHeaderCount "Phase 7: A\nPhase 9: B" = 2 := by rfl
  have hlen : plan.phases.length = 2 := by
    rw [h3 (by rw [hc]; omega), hc]
  rw [h2, hlen]
  rfl

/-! ## Claim C4: fenced-JSON extraction -/

/-- C4 (amended). Whenever the whole (stripped) response does not itself
parse as JSON and the fenced-code-block scan succeeds — i.e. some fenced
block parses, first parseable block winning — `extract_json` returns that
value, regardless of the surrounding prose (the log-entry and in-text
strategies are never consulted). -/
theorem extract_json_fenced_block (response : String) (v : Json)
    (h0 : pyStrip response ≠ "")
    (h1 : tryDirectParse (pyStrip response) = none)
    (h2 : extractFromCodeBlocks response = some v) :
    extractJson response "object" = some (some v) := by
  unfold extractJson
  rw [if_neg h0, h1, h2]

/-- Witness for C4: a fenced object surrounded by prose. -/
theorem extract_json_fenced_block_witness :
    extractJson "Here is the data:\n```json\n\x7b\"a\": 1\x7d\n```\nthanks" "object" =
      some (some (Json.obj [("a", Json.num 1)])) :=
  extract_json_fenced_block "Here is the data:\n```json\n\x7b\"a\": 1\x7d\n```\nthanks"
    (Json.obj [("a", Json.num 1)]) (by decide) (by rfl) (by rfl)

/-- Counterexample for C4 as frozen: the response contains the well-formed
JSON object `{"a": 1}` inside a `json`-tagged fence, but an earlier
untagged fence whose content parses as the JSON number `42` wins, so
`extract_json` does not return the fenced object. -/
theorem extract_json_fenced_block_counterexample :
    (reFindAllStr jsonBlockRE "```\n42\n```\n```json\n\x7b\"a\": 1\x7d\n```").map
      (fun m => capGet m.1 1) = [some "42", some "\x7b\"a\": 1\x7d"] ∧
    jsonLoads "\x7b\"a\": 1\x7d" = some (Json.obj [("a", Json.num 1)]) ∧
    extractJson "```\n42\n```\n```json\n\x7b\"a\": 1\x7d\n```" "object" =
      some (some (Json.num 42)) ∧
    Json.num 42 ≠ Json.obj [("a", Json.num 1)] := by
  refine ⟨by rfl, by rfl, by rfl, ?_⟩
  intro h
  exact Json.noConfusion h

/-! ## Claim C9: the labeled-field regex fallback -/

theorem alistSet_not_mem {V : Type} (acc : List (String × V)) (k : String) (v : V)
    (h : k ∉ acc.map Prod.fst) : alistSet acc k v = acc ++ [(k, v)] := by
  induction acc with
  | nil => rfl
  | cons p rest ih =>
    simp only [List.map_cons, List.mem_cons] at h
    push_neg at h
    simp only [alistSet]
    rw [if_neg (fun he : p.1 = k => h.1 he.symm), ih h.2]
    rfl

theorem fieldsFold_filterMap (text : String) :
    ∀ (fields : List String) (acc : List (String × Json)),
      fields.Nodup → (∀ f ∈ fields, f ∉ acc.map Prod.fst) →
      fields.foldl (fun acc f =>
        match fieldFirstMatch f text with
        | some v => alistSet acc f (fieldValue f v)
        | none => acc) acc =
      acc ++ fields.filterMap (fun f =>
        (fieldFirstMatch f text).map (fun v => (f, fieldValue f v))) := by
  intro fields
  induction fields with
  | nil => intro acc _ _; simp
  | cons f fs ih =>
    intro acc hnd hdisj
    rw [List.nodup_cons] at hnd
    simp only [List.foldl_cons, List.filterMap_cons]
    cases hm : fieldFirstMatch f text with
    | none =>
      simp only [hm, Option.map_none']
      exact ih acc hnd.2 (fun g hg => hdisj g (List.mem_cons_of_mem f hg))
    | some v =>
      have hnotin : f ∉ acc.map Prod.fst := hdisj f (List.mem_cons_self f fs)
      simp only [hm, Option.map_some']
      rw [alistSet_not_mem acc f (fieldValue f v) hnotin,
        ih (acc ++ [(f, fieldValue f v)]) hnd.2 ?_, List.append_assoc]
      · rfl
      · intro g hg
        simp only [List.map_append, List.mem_append, List.map_cons, List.map_nil,
          List.mem_singleton]
        push_neg
        refine ⟨hdisj g (List.mem_cons_of_mem f hg), fun he => hnd.1 (he ▸ hg)⟩

theorem filterMap_keyed_map_fst {A B C : Type} (fields : List A)
    (m : A → Option C) (h : A → C → A × B) (hk : ∀ a c, (h a c).1 = a) :
    (fields.filterMap (fun f => (m f).map (h f))).map Prod.fst =
      fields.filter (fun f => (m f).isSome) := by
  induction fields with
  | nil => rfl
  | cons f fs ih =>
    simp only [List.filterMap_cons, List.filter_cons]
    cases hm : m f with
    | none => simpa using ih
    | some b =>
      simp only [Option.map_some', Option.isSome_some, if_pos, List.map_cons, hk]
      rw [ih]

/-- C9. When the response yields no extractable non-empty JSON dict, the
interview extractor falls back to the field regexes: the result has exactly
the recognized fields, in the fixed field order; the values of
`languages` / `frameworks` / `apis` are the comma/semicolon splits of the
matched text (items stripped, empties dropped) and every other recognized
field keeps the matched string. -/
theorem interview_regex_fallback (response : String) (jd : Option Json)
    (hex : extractJson response "object" = some jd)
    (hnd : ∀ o, jd = some (Json.obj o) → o = []) :
    extractInterviewData response = some (fieldsViaRegex response) ∧
    fieldsViaRegex response = interviewFieldNames.filterMap (fun f =>
      (fieldFirstMatch f response).map (fun v => (f, fieldValue f v))) ∧
    (fieldsViaRegex response).map Prod.fst =
      interviewFieldNames.filter (fun f => (fieldFirstMatch f response).isSome) ∧
    (∀ f v, f ∈ listValuedFields →
      fieldValue f v = Json.arr ((splitDelims v).filterMap (fun item =>
        if pyStrip item = "" then none else some (Json.str (pyStrip item))))) ∧
    (∀ f v, f ∉ listValuedFields → fieldValue f v = Json.str v) := by
  have hfold : fieldsViaRegex response = interviewFieldNames.filterMap (fun f =>
      (fieldFirstMatch f response).map (fun v => (f, fieldValue f v))) := by
    unfold fieldsViaRegex
    rw [fieldsFold_filterMap response interviewFieldNames [] (by decide) (by simp)]
    rfl
  refine ⟨?_, hfold, ?_, ?_, ?_⟩
  · unfold extractInterviewData
    rw [hex]
    cases jd with
    | none => rfl
    | some j =>
      cases j with
      | obj o =>
        have := hnd o rfl
        subst this
        rfl
      | null => rfl
      | bool b => rfl
      | num q => rfl
      | nan => rfl
      | inf neg => rfl
      | str s => rfl
      | arr xs => rfl
  · rw [hfold]
    exact filterMap_keyed_map_fst interviewFieldNames (fun f => fieldFirstMatch f response)
      (fun f v => (f, fieldValue f v)) (fun _ _ => rfl)
  · intro f v hf
    simp [fieldValue, hf]
  · intro f v hf
    simp [fieldValue, hf]

/-- Witness for C9: a plain-prose response with a project name and a
language list. -/
theorem interview_regex_fallback_witness :
    extractInterviewData "Project Name: Todo\nLanguages: Python, Rust" =
      some [("project_name", Json.str "Todo"),
            ("languages", Json.arr [Json.str "Python", Json.str "Rust"])] := by
  have h := interview_regex_fallback "Project Name: Todo\nLanguages: Python, Rust" none
    (by rfl) (fun o ho => Option.noConfusion ho)
  exact h.1.trans (by rfl)

/-! ## Claim C3: the "Implementation" fallback phase -/

theorem firstSome_of_append_eq_none {A B : Type} (l1 l2 : List A) (g : A → Option B)
    (h : firstSome (l1 ++ l2) g = none) : firstSome l1 g = none := by
  induction l1 with
  | nil => rfl
  | cons x xs ih =>
    rw [List.cons_append] at h
    unfold firstSome at h ⊢
    cases hg : g x with
    | some v =>
      rw [hg] at h
      exact absurd h (by simp)
    | none =>
      rw [hg] at h
      exact ih h

/-- The grouped parser's phase patterns are an initial segment of the flat
parser's, so a line no flat pattern matches is matched by no grouped
pattern either. -/
theorem groupedHeader_none_of_flat_none (s : String)
    (h : phaseHeaderMatch flatPhasePatterns s = none) :
    phaseHeaderMatch groupedPhasePatterns s = none := by
  unfold phaseHeaderMatch at h ⊢
  exact firstSome_of_append_eq_none groupedPhasePatterns [phaseRE5] _
    (by rw [show groupedPhasePatterns ++ [phaseRE5] = flatPhasePatterns from rfl]; exact h)

theorem fold_id_of_all {A B : Type} (step : B → A → B) (init : B) :
    ∀ (lines : List A), (∀ l ∈ lines, step init l = init) →
      lines.foldl step init = init := by
  intro lines
  induction lines with
  | nil => intro _; rfl
  | cons l ls ih =>
    intro h
    rw [List.foldl_cons, h l (List.mem_cons_self l ls)]
    exact ih (fun u hu => h u (List.mem_cons_of_mem l hu))

theorem flatStep_init_id (l : String)
    (h : phaseHeaderMatch flatPhasePatterns (pyStrip l) = none) :
    flatStep flatInitState l = flatInitState := by
  unfold flatStep flatInitState
  simp [h]

theorem groupedStep_init_id (l : String)
    (hp : phaseHeaderMatch groupedPhasePatterns (pyStrip l) = none)
    (hg : groupHeaderMatch (pyStrip l) = none) :
    groupedStep groupedInitState l = groupedInitState := by
  unfold groupedStep groupedInitState
  simp [hp, hg]

theorem parseFlatResponse_ne_nil (resp name : String) (plan : DevPlan)
    (hp : parseFlatResponse resp name = some plan) : plan.phases ≠ [] := by
  unfold parseFlatResponse at hp
  cases hext : extractTextFromLogEntries resp with
  | none => rw [hext] at hp; exact absurd hp (by simp)
  | some r' =>
    rw [hext, Option.map_some'] at hp
    have hpl := Option.some.inj hp
    rw [← hpl]
    cases hS : flatFlush ((pySplitOn '\n' r').foldl flatStep flatInitState) with
    | nil => simp [hS]
    | cons a as => simp [hS]

theorem parseGroupedResponse_ne_nil (resp name : String) (plan : DevPlan)
    (hp : parseGroupedResponse resp name = some plan) : plan.phases ≠ [] := by
  unfold parseGroupedResponse at hp
  cases hext : extractTextFromLogEntries resp with
  | none =>
    simp only [hext] at hp
    exact Option.noConfusion hp
  | some r' =>
    simp only [hext] at hp
    cases hjb : groupedJsonBlock r' with
    | some o =>
      simp only [hjb] at hp
      cases hpb : phasesFromJsonBlock o with
      | none =>
        simp only [hpb] at hp
        exact Option.noConfusion hp
      | some ps =>
        simp only [hpb, Option.some.injEq] at hp
        rw [← hp]
        cases hps : ps with
        | nil => simp [hps]
        | cons a as => simp [hps]
    | none =>
      simp only [hjb, Option.some.injEq] at hp
      rw [← hp]
      cases hps : parseGroupedLines (pySplitOn '\n' r') with
      | nil => simp [hps]
      | cons a as => simp [hps]

/-- C3 (amended). For every response whose (log-entry-extracted) text has
no line matching a phase-header pattern, no line matching a group-header
pattern, and no parseable fenced `json` object block, both the flat parser
and the grouped parser return a plan with exactly one phase, numbered 1 and
titled "Implementation".  The group-header/JSON proviso is necessary for
the grouped parser (see the counterexample, where a group header with no
phase header synthesizes a phase titled "Phase 1" instead).  And no parse
ever returns a plan with zero phases. -/
theorem no_header_fallback_phase (response projectName r : String)
    (hr : extractTextFromLogEntries response = some r)
    (hflat : ∀ l ∈ pySplitOn '\n' r,
      phaseHeaderMatch flatPhasePatterns (pyStrip l) = none)
    (hgroup : ∀ l ∈ pySplitOn '\n' r, groupHeaderMatch (pyStrip l) = none)
    (hjson : groupedJsonBlock r = none) :
    parseFlatResponse response projectName =
      some { phases := [{ number := 1, title := "Implementation", steps := [] }],
             summary := some ("Development plan for " ++ projectName ++ " with " ++
               toString (1 : Nat) ++ " phases") } ∧
    parseGroupedResponse response projectName =
      some { phases := [{ number := 1, title := "Implementation", steps := [],
                          taskGroups := [] }],
             summary := some ("Development plan for " ++ projectName ++ " with " ++
               toString (1 : Nat) ++ " phases (grouped mode)") } ∧
    (∀ resp name plan, parseFlatResponse resp name = some plan → plan.phases ≠ []) ∧
    (∀ resp name plan, parseGroupedResponse resp name = some plan → plan.phases ≠ []) := by
  have hfoldf : (pySplitOn '\n' r).foldl flatStep flatInitState = flatInitState :=
    fold_id_of_all flatStep flatInitState (pySplitOn '\n' r)
      (fun l hl => flatStep_init_id l (hflat l hl))
  have hfoldg : (pySplitOn '\n' r).foldl groupedStep groupedInitState = groupedInitState :=
    fold_id_of_all groupedStep groupedInitState (pySplitOn '\n' r)
      (fun l hl => groupedStep_init_id l
        (groupedHeader_none_of_flat_none (pyStrip l) (hflat l hl)) (hgroup l hl))
  refine ⟨?_, ?_, parseFlatResponse_ne_nil, parseGroupedResponse_ne_nil⟩
  · rw [parseFlatResponse, hr, Option.map_some']
    rw [show flatFlush ((pySplitOn '\n' r).foldl flatStep flatInitState) = [] from by
      rw [hfoldf]; rfl]
    rfl
  · unfold parseGroupedResponse
    simp only [hr, hjson]
    rw [show parseGroupedLines (pySplitOn '\n' r) = [] from by
      unfold parseGroupedLines
      rw [hfoldg]
      rfl]
    rfl

/-- Witness for C3 (amended): plain prose. -/
theorem no_header_fallback_phase_witness :
    parseFlatResponse "just some prose" "proj" =
      some { phases := [{ number := 1, title := "Implementation", steps := [] }],
             summary := some ("Development plan for " ++ "proj" ++ " with " ++
               toString (1 : Nat) ++ " phases") } ∧
    parseGroupedResponse "just some prose" "proj" =
      some { phases := [{ number := 1, title := "Implementation", steps := [],
                          taskGroups := [] }],
             summary := some ("Development plan for " ++ "proj" ++ " with " ++
               toString (1 : Nat) ++ " phases (grouped mode)") } := by
  have h := no_header_fallback_phase "just some prose" "proj" "just some prose"
    (by rfl) (by decide) (by decide) (by rfl)
  exact ⟨h.1, h.2.1⟩

/-- Counterexample for C3 as frozen: `**Group 1**` matches no phase-header
pattern of either parser, yet the grouped parser synthesizes a phase titled
"Phase 1", not "Implementation". -/
theorem grouped_no_phase_header_counterexample :
    (pySplitOn '\n' "**Group 1**").map
      (fun l => phaseHeaderMatch flatPhasePatterns (pyStrip l)) = [none] ∧
    (parseGroupedResponse "**Group 1**" "proj").map
      (fun d => d.phases.map DevPlanPhase.title) = some ["Phase 1"] ∧
    "Phase 1" ≠ "Implementation" := by
  refine ⟨by rfl, by rfl, by decide⟩

/-! ## Claim C5: detailed-generate de-duplication and output order -/

theorem alistGet_alistSet_self {K V : Type} [DecidableEq K]
    (m : List (K × V)) (k : K) (v : V) : alistGet (alistSet m k v) k = some v := by
  induction m with
  | nil => simp [alistSet, alistGet]
  | cons p rest ih =>
    by_cases hp : p.1 = k
    · simp [alistSet, alistGet, hp]
    · simp only [alistSet, if_neg hp, alistGet]
      exact ih

theorem alistGet_alistSet_ne {K V : Type} [DecidableEq K]
    (m : List (K × V)) (k k' : K) (v : V) (h : k ≠ k') :
    alistGet (alistSet m k v) k' = alistGet m k' := by
  induction m with
  | nil => simp [alistSet, alistGet, h]
  | cons p rest ih =>
    by_cases hp : p.1 = k
    · simp only [alistSet, if_pos hp, alistGet, if_neg h]
      rw [if_neg (fun hpe : p.1 = k' => h (hp ▸ hpe))]
    · simp only [alistSet, if_neg hp, alistGet]
      by_cases hpk : p.1 = k'
      · rw [if_pos hpk, if_pos hpk]
      · rw [if_neg hpk, if_neg hpk]
        exact ih

theorem alistGet_fold_set_untouched (n : Int) :
    ∀ (results : List DevPlanPhase) (m : List (Int × DevPlanPhase)),
      (∀ y ∈ results, y.number ≠ n) →
      alistGet (results.foldl (fun m r => alistSet m r.number r) m) n = alistGet m n := by
  intro results
  induction results with
  | nil => intro m _; rfl
  | cons r rs ih =>
    intro m h
    rw [List.foldl_cons, ih (alistSet m r.number r)
      (fun y hy => h y (List.mem_cons_of_mem r hy)),
      alistGet_alistSet_ne m r.number n r (h r (List.mem_cons_self r rs))]

theorem alistGet_fold_set_mem (n : Int) :
    ∀ (results : List DevPlanPhase) (m : List (Int × DevPlanPhase)) (x : DevPlanPhase),
      (results.map DevPlanPhase.number).Nodup → x ∈ results → x.number = n →
      alistGet (results.foldl (fun m r => alistSet m r.number r) m) n = some x := by
  intro results
  induction results with
  | nil => intro m x _ hx _; cases hx
  | cons r rs ih =>
    intro m x hnd hx hxn
    rw [List.map_cons, List.nodup_cons] at hnd
    rw [List.foldl_cons]
    rcases List.mem_cons.mp hx with rfl | hxs
    · rw [alistGet_fold_set_untouched n rs (alistSet m x.number x) ?_]
      · rw [show alistGet (alistSet m x.number x) n = some x from by
          rw [← hxn]; exact alistGet_alistSet_self m x.number x]
      · intro y hy hyn
        exact hnd.1 (by rw [hxn, ← hyn]; exact List.mem_map_of_mem DevPlanPhase.number hy)
    · exact ih (alistSet m r.number r) x hnd.2 hxs hxn

theorem dedup_fold_nums_nodup :
    ∀ (ps acc : List DevPlanPhase), (acc.map DevPlanPhase.number).Nodup →
      ((ps.foldl (fun acc p =>
        if acc.any (fun q => decide (q.number = p.number)) then acc
        else acc ++ [p]) acc).map DevPlanPhase.number).Nodup := by
  intro ps
  induction ps with
  | nil => intro acc h; exact h
  | cons p rest ih =>
    intro acc h
    rw [List.foldl_cons]
    by_cases hany : acc.any (fun q => decide (q.number = p.number))
    · rw [if_pos hany]
      exact ih acc h
    · rw [if_neg hany]
      apply ih
      rw [List.map_append, List.map_cons, List.map_nil]
      rw [List.nodup_append]
      refine ⟨h, List.nodup_singleton _, ?_⟩
      intro a ha hb
      rw [List.mem_singleton] at hb
      subst hb
      rw [List.mem_map] at ha
      rcases ha with ⟨q, hq, hqa⟩
      exact hany (List.any_eq_true.mpr ⟨q, hq, by simp [hqa]⟩)

theorem dedup_fold_find :
    ∀ (ps acc : List DevPlanPhase) (pred : DevPlanPhase → Bool),
      (∀ a b : DevPlanPhase, a.number = b.number → (pred a ↔ pred b)) →
      (ps.foldl (fun acc p =>
        if acc.any (fun q => decide (q.number = p.number)) then acc
        else acc ++ [p]) acc).find? pred = (acc ++ ps).find? pred := by
  intro ps
  induction ps with
  | nil =>
    intro acc pred _
    rw [List.append_nil]
    rfl
  | cons p rest ih =>
    intro acc pred hpred
    rw [List.foldl_cons]
    by_cases hany : acc.any (fun q => decide (q.number = p.number))
    · rw [if_pos hany, ih acc pred hpred]
      rw [List.find?_append, List.find?_append]
      by_cases hp : pred p
      · rcases List.any_eq_true.mp hany with ⟨q, hq, hqn⟩
        have hqn' : q.number = p.number := of_decide_eq_true hqn
        have hpq : pred q := (hpred q p hqn').mpr hp
        have hsome : (acc.find? pred).isSome := List.find?_isSome.mpr ⟨q, hq, hpq⟩
        cases hfa : acc.find? pred with
        | none => rw [hfa] at hsome; simp at hsome
        | some w => rfl
      · have hcons : (p :: rest).find? pred = rest.find? pred := by
          rw [List.find?_cons_of_neg]
          simpa using hp
        rw [hcons]
    · rw [if_neg hany, ih (acc ++ [p]) pred hpred, List.append_assoc]
      rfl

/-- C5 (amended). `DetailedDevPlanGenerator.generate` de-duplicates the
input phases by number keeping the first occurrence (for every predicate
depending only on the phase number, searching the de-duplicated list finds
what searching the input finds), the de-duplicated numbers contain no
duplicates, and the assembled output is exactly the detailed phases in the
order of the *de-duplicated input* — independent of the completion order
in which the per-phase results arrived.  The output is therefore ascending
by phase number exactly when the de-duplicated input is (true for plans
produced by the flat parser, whose numbers are `1..N`, but not for every
input basic devplan: see the counterexample). -/
theorem detailed_generate_order (phases results : List DevPlanPhase)
    (detail : DevPlanPhase → DevPlanPhase)
    (hdet : ∀ p, (detail p).number = p.number)
    (hperm : results.Perm ((dedupPhases phases).map detail)) :
    assembleByNumber results (dedupPhases phases) =
      (dedupPhases phases).map (fun p => some (detail p)) ∧
    ((dedupPhases phases).map DevPlanPhase.number).Nodup ∧
    (∀ pred : DevPlanPhase → Bool,
      (∀ a b : DevPlanPhase, a.number = b.number → (pred a ↔ pred b)) →
      (dedupPhases phases).find? pred = phases.find? pred) := by
  have hnodupU : ((dedupPhases phases).map DevPlanPhase.number).Nodup :=
    dedup_fold_nums_nodup phases [] (by simp)
  have hmapnum : ((dedupPhases phases).map detail).map DevPlanPhase.number =
      (dedupPhases phases).map DevPlanPhase.number := by
    rw [List.map_map]
    exact List.map_congr_left (fun p _ => hdet p)
  have hnodupR : (results.map DevPlanPhase.number).Nodup := by
    have hpn := hperm.map DevPlanPhase.number
    rw [hmapnum] at hpn
    exact hpn.nodup_iff.mpr hnodupU
  refine ⟨?_, hnodupU, fun pred hpred => dedup_fold_find phases [] pred hpred⟩
  unfold assembleByNumber
  apply List.map_congr_left
  intro p hp
  have hmem : detail p ∈ results :=
    hperm.mem_iff.mpr (List.mem_map_of_mem detail hp)
  exact alistGet_fold_set_mem p.number results [] (detail p) hnodupR hmem (hdet p)

/-- Counterexample for C5 as frozen: a basic devplan whose phases arrive as
`[2, 1]` is assembled in first-occurrence input order `[2, 1]`, which is not
ascending phase-number order. -/
theorem detailed_generate_order_counterexample :
    (assembleByNumber
        [{ number := 1, title := "A" }, { number := 2, title := "B" }]
        (dedupPhases [{ number := 2, title := "B" }, { number := 1, title := "A" }])).map
      (fun o => o.map DevPlanPhase.number) = [some 2, some 1] ∧
    [some (2 : Int), some 1] ≠ [some 1, some 2] := by
  exact ⟨by rfl, by decide⟩

/-- Witness for C5 (amended), at a concrete out-of-order input with the
identity detailing function and a completion order different from the
input order. -/
theorem detailed_generate_order_witness :
    assembleByNumber
        [{ number := 1, title := "A" }, { number := 2, title := "B" }]
        (dedupPhases [{ number := 2, title := "B" }, { number := 1, title := "A" }]) =
      (dedupPhases [{ number := 2, title := "B" }, { number := 1, title := "A" }]).map
        (fun p => some (id p)) := by
  exact (detailed_generate_order
    [{ number := 2, title := "B" }, { number := 1, title := "A" }]
    [{ number := 1, title := "A" }, { number := 2, title := "B" }]
    id (fun p => rfl) (by decide)).1

end Ralphussy
